import Mathlib

/-!
# Verification of the `uml` extraction engine (bearing-actions-go)

Shallow embedding of `uml/generate.go`, `uml/model.go` and `uml/options.go`.

Modelling conventions:
* Go strings are Lean `String`s.  Go compares strings byte-wise; for valid
  UTF-8 this agrees with the scalar-value order used by Lean's `String`
  order, and all byte-level substring / suffix tests used by the code
  involve ASCII needles, where byte-level and character-level agree.
* Filesystem paths are lists of components (`List String`); joining with
  "/" happens only where the Go code produces a path string.
* `ast` values are embedded as inductive types carrying exactly the parts
  the Go code inspects.  Comment groups appear as the `String` that
  `CommentGroup.Text()` would yield (an `Option`, `none` for a nil group).
* I/O is embedded by value: a file carries the line list a scanner would
  produce together with error flags (`Sniff`), and a parse result is an
  `Except`.
* `sort.Slice` is embedded as `List.insertionSort`, a deterministic
  comparison sort.  Go's sort is deterministic for fixed input as well;
  both are unstable-in-spec but insertion sort (which Go also uses for
  small slices) preserves the order of equal keys.
* Go map iteration order (over `parsed` packages and `pkg.Files`) is
  embedded as list order; the list order is the nondeterminism parameter.
-/

namespace BearingUml

/-! ## Small Go string helpers -/

/-- The whitespace class of Go's `unicode.IsSpace` restricted to the code
points that can appear in the inputs handled here. -/
def goIsSpace (c : Char) : Bool :=
  c = ' ' || c = '\t' || c = '\n' || c = '\r' ||
    c = Char.ofNat 11 || c = Char.ofNat 12 || c = Char.ofNat 133 || c = Char.ofNat 160

/-- Go `strings.TrimSpace`. -/
def goTrimSpace (s : String) : String :=
  String.mk (((s.data.dropWhile goIsSpace).reverse.dropWhile goIsSpace).reverse)

/-- Go `strings.Trim(s, cutset)` for a one-character cutset. -/
def goTrimChar (c : Char) (s : String) : String :=
  String.mk (((s.data.dropWhile (· = c)).reverse.dropWhile (· = c)).reverse)

/-- Go `strings.Contains`. -/
def strContains (s pat : String) : Bool :=
  s.data.tails.any fun t => pat.data.isPrefixOf t

/-- Go `strings.HasSuffix`. -/
def strHasSuffix (s suffix : String) : Bool :=
  suffix.data.isSuffixOf s.data

/-- Go `strings.HasPrefix`. -/
def strHasPrefix (s p : String) : Bool :=
  p.data.isPrefixOf s.data

/-- Go `ast.IsExported`: the first rune is an upper-case letter
(restricted here to the Latin range of `unicode.IsUpper`). -/
def isExported (name : String) : Bool :=
  match name.data with
  | [] => false
  | c :: _ => c.isUpper

/-- Go compares strings byte-wise; on valid UTF-8 that is the code-point
lexicographic order, i.e. the order of the character lists.  Routing the
`Decidable` instances through the lists keeps every comparison
kernel-computable. -/
instance (priority := 2000) strLtDec : DecidableRel (fun a b : String => a < b) := fun a b =>
  decidable_of_iff (a.toList < b.toList) String.lt_iff_toList_lt.symm

instance (priority := 2000) strLeDec : DecidableRel (fun a b : String => a ≤ b) := fun a b =>
  decidable_of_iff (a.toList ≤ b.toList) String.le_iff_toList_le.symm

/-! ## Path arithmetic (`path/filepath` on clean absolute paths) -/

/-- Strip the common prefix of two component lists. -/
def dropCommonPre : List String → List String → List String × List String
  | a :: as, b :: bs => if a = b then dropCommonPre as bs else (a :: as, b :: bs)
  | as, bs => (as, bs)

/-- `filepath.Rel` on clean absolute paths, as components.  An empty result
corresponds to Go's ".". -/
def goRel (base target : List String) : List String :=
  let p := dropCommonPre base target
  List.replicate p.1.length ".." ++ p.2

/-- `toRelPath` from generate.go: relative path string, slash separated
(`filepath.Rel` cannot fail on the clean absolute paths used here). -/
def toRelPath (baseDir path : List String) : String :=
  match goRel baseDir path with
  | [] => "."
  | l => String.intercalate "/" l

/-- Join an absolute component path into the string Go would hold. -/
def joinAbs (l : List String) : String :=
  "/" ++ String.intercalate "/" l

/-! ## The output data model (`uml/model.go`) -/

structure Param where
  name : String
  type : String
  deriving DecidableEq, Repr

structure TypeParam where
  name : String
  constraint : String
  deriving DecidableEq, Repr

structure Function where
  name : String
  exported : Bool
  doc : String
  receiver : String
  typeParams : List TypeParam
  params : List Param
  results : List Param
  variadic : Bool
  deriving DecidableEq, Repr

structure Field where
  name : String
  type : String
  tag : String
  embedded : Bool
  exported : Bool
  deriving DecidableEq, Repr

inductive TypeKind where
  | struct
  | interface
  | alias
  | other
  deriving DecidableEq, Repr

/-- `Type` from model.go (`Type` is reserved in Lean). -/
structure GoType where
  name : String
  kind : TypeKind
  exported : Bool
  doc : String
  typeParams : List TypeParam
  fields : List Field
  embedded : List String
  methods : List Function
  deriving DecidableEq, Repr

structure Package where
  name : String
  importPath : String
  dir : String
  files : List String
  types : List GoType
  functions : List Function
  deriving DecidableEq, Repr

/-- `Module` from model.go; the directory is kept as components. -/
structure Module where
  path : String
  dir : List String
  deriving DecidableEq, Repr

/-- `Model` from model.go (the generation timestamp carries no logical
content and is omitted). -/
structure Model where
  root : String
  module : Option Module
  packages : List Package
  deriving DecidableEq, Repr

/-- `Options` from options.go (`Indent` only feeds JSON rendering). -/
structure Options where
  includeTests : Bool
  includeGenerated : Bool
  excludeDirNames : List String
  indent : String
  deriving DecidableEq, Repr

/-- `Options.withDefaults` from options.go. -/
def Options.withDefaults (o : Options) : Options :=
  let o1 :=
    if o.excludeDirNames = [] then
      { o with excludeDirNames := [".git", ".idea", ".vscode", "node_modules", "testdata", "vendor"] }
    else o
  if o1.indent = "" then { o1 with indent := "  " } else o1

/-! ## The syntax-tree embedding (`go/ast` fragments the code inspects) -/

/-- Type-valued expressions as far as generate.go distinguishes them.
`lit` is any other expression form, carried by its printed text.  The
index arguments of an `ast.IndexListExpr` are only ever printed by the
code (never inspected), so they are carried as their printed text. -/
inductive GoExpr where
  | ident (name : String)
  | star (x : GoExpr)
  | indexOne (x : GoExpr) (arg : GoExpr)
  | indexMany (x : GoExpr) (argsPrinted : String)
  | paren (x : GoExpr)
  | ellipsis (x : GoExpr)
  | selector (x : GoExpr) (field : String)
  | lit (printed : String)
  deriving DecidableEq, Repr

/-- `exprString` from generate.go (`printer.Fprint` of the expression). -/
def exprString : GoExpr → String
  | .ident n => n
  | .star x => "*" ++ exprString x
  | .indexOne x a => exprString x ++ "[" ++ exprString a ++ "]"
  | .indexMany x as => exprString x ++ "[" ++ as ++ "]"
  | .paren x => "(" ++ exprString x ++ ")"
  | .ellipsis x => "..." ++ exprString x
  | .selector x f => exprString x ++ "." ++ f
  | .lit s => s

/-- An `ast.Field`: a name group sharing one type expression, with the
attached comment groups and tag that generate.go reads. -/
structure GoField where
  names : List String
  type : GoExpr
  tag : Option String
  doc : Option String
  comment : Option String
  deriving DecidableEq, Repr

/-- The signature parts of an `ast.FuncType`. -/
structure FuncSig where
  typeParams : List GoField
  params : List GoField
  results : List GoField
  deriving DecidableEq, Repr

/-- The type of an interface member: either a function type (a method
spec) or some other type expression (an embedded element). -/
inductive IfaceType where
  | funcT (sig : FuncSig)
  | exprT (e : GoExpr)
  deriving DecidableEq, Repr

/-- Printed form of an interface member type. -/
def ifaceTypeString : IfaceType → String
  | .funcT _ => "func"
  | .exprT e => exprString e

/-- An `ast.Field` inside an `ast.InterfaceType`. -/
structure IfaceField where
  names : List String
  sig : IfaceType
  doc : Option String
  comment : Option String
  deriving DecidableEq, Repr

/-- The underlying type of a `TypeSpec` as far as the code dispatches on
it: `*ast.StructType`, `*ast.InterfaceType`, or anything else. -/
inductive Underlying where
  | structU (fields : List GoField)
  | interfaceU (members : List IfaceField)
  | otherU (e : GoExpr)
  deriving DecidableEq, Repr

/-- An `ast.TypeSpec`.  `assign` is `ts.Assign.IsValid()` (alias syntax). -/
structure TypeSpec where
  name : String
  assign : Bool
  doc : Option String
  typeParams : List GoField
  underlying : Underlying
  deriving DecidableEq, Repr

/-- An `ast.FuncDecl`.  An absent or empty receiver list are on the same
code path, so both are the empty list. -/
structure FuncDecl where
  name : String
  doc : Option String
  recv : List GoField
  typeParams : List GoField
  params : List GoField
  results : List GoField
  deriving DecidableEq, Repr

/-- A top-level declaration as far as the two extraction passes
distinguish them: a `GenDecl` with `Tok == token.TYPE` (whose specs are
type specs), a `FuncDecl`, or anything else (skipped by both passes). -/
inductive GoDecl where
  | genType (doc : Option String) (specs : List TypeSpec)
  | funcD (fd : FuncDecl)
  | otherD
  deriving DecidableEq, Repr

/-- An `ast.File`: the declared package name and the declarations. -/
structure GoFileAst where
  pkgName : String
  decls : List GoDecl
  deriving DecidableEq, Repr

/-! ## Extraction helpers (generate.go, bottom half) -/

/-- `receiverBaseName` from generate.go. -/
def receiverBaseName : GoExpr → String
  | .ident n => n
  | .star x => receiverBaseName x
  | .indexOne x _ => receiverBaseName x
  | .indexMany x _ => receiverBaseName x
  | .paren x => receiverBaseName x
  | .ellipsis _ => ""
  | .selector _ _ => ""
  | .lit _ => ""

/-- `docText` from generate.go. -/
def docText (primary fallback : Option String) (fallbackAllowed : Bool) : String :=
  match primary with
  | some s => goTrimSpace s
  | none =>
    match fallbackAllowed, fallback with
    | true, some s => goTrimSpace s
    | _, _ => ""

/-- `kindForTypeSpec` from generate.go. -/
def kindForTypeSpec (ts : TypeSpec) : TypeKind :=
  if ts.assign then .alias
  else
    match ts.underlying with
    | .structU _ => .struct
    | .interfaceU _ => .interface
    | .otherU _ => .other

/-- `parseTypeParams` from generate.go. -/
def parseTypeParams (params : List GoField) : List TypeParam :=
  params.flatMap fun field =>
    let constraint := exprString field.type
    field.names.map fun n => { name := n, constraint := constraint }

/-- Whether an expression is an `*ast.Ellipsis`. -/
def isEllipsisExpr : GoExpr → Bool
  | .ellipsis _ => true
  | _ => false

/-- `parseParams` from generate.go: the flattened parameter list and the
variadic flag (looked up on the last group only). -/
def parseParams (params : List GoField) : List Param × Bool :=
  let out := params.flatMap fun field =>
    let typ := exprString field.type
    if field.names = [] then [{ name := "", type := typ }]
    else field.names.map fun n => ({ name := n, type := typ } : Param)
  let variadic :=
    match params.getLast? with
    | some f => isEllipsisExpr f.type
    | none => false
  (out, variadic)

/-- `parseResults` from generate.go. -/
def parseResults (results : List GoField) : List Param :=
  results.flatMap fun field =>
    let typ := exprString field.type
    if field.names = [] then [{ name := "", type := typ }]
    else field.names.map fun n => ({ name := n, type := typ } : Param)

/-- The backtick character trimmed off struct tags. -/
def backtickChar : Char := Char.ofNat 96

/-- `parseStructFields` from generate.go.  The loop accumulates named
entries into the field list and unnamed entries into the embedded list;
the two accumulations are independent, written here as two traversals. -/
def parseStructFields (fields : List GoField) : List Field × List String :=
  (fields.flatMap fun field =>
    let typ := exprString field.type
    let tag := match field.tag with
      | some t => goTrimChar backtickChar t
      | none => ""
    if field.names = [] then []
    else field.names.map fun n =>
      ({ name := n, type := typ, tag := tag, embedded := false, exported := isExported n } : Field),
   (fields.filter (fun f => f.names = [])).map fun f => exprString f.type)

/-- `parseInterfaceMethods` from generate.go. -/
def parseInterfaceMethods (methods : List IfaceField) : List Function × List String :=
  (methods.filterMap fun field =>
    match field.names with
    | [] => none
    | [name] =>
      match field.sig with
      | .funcT ft =>
        let pv := parseParams ft.params
        some { name := name, exported := isExported name,
               doc := docText field.doc field.comment false,
               receiver := "",
               typeParams := parseTypeParams ft.typeParams,
               params := pv.1, results := parseResults ft.results, variadic := pv.2 }
      | .exprT _ => none
    | _ :: _ :: _ => none,
   (methods.filter (fun f => f.names = [])).map fun f => ifaceTypeString f.sig)

/-- Pass 1 of `extractPackage`: the `Type` built from one `TypeSpec`
inside a group declaring `specs` specs with group comment `genDoc`. -/
def typeOfSpec (genDoc : Option String) (singleSpec : Bool) (ts : TypeSpec) : GoType :=
  let base : GoType :=
    { name := ts.name, kind := kindForTypeSpec ts, exported := isExported ts.name,
      doc := docText ts.doc genDoc singleSpec, typeParams := parseTypeParams ts.typeParams,
      fields := [], embedded := [], methods := [] }
  match ts.underlying with
  | .structU fs =>
    let fe := parseStructFields fs
    { base with fields := fe.1, embedded := fe.2 }
  | .interfaceU ms =>
    let me := parseInterfaceMethods ms
    { base with methods := me.1, embedded := me.2 }
  | .otherU _ => base

/-- The inner spec loop of pass 1: append each declared type and record
its name in the index table (most recent entry first, which is how a Go
map overwrite behaves under `List.lookup`).  `single` is the group's
`len(gen.Specs) == 1`, fixed over the loop. -/
def pass1Specs (gdoc : Option String) (single : Bool) :
    List TypeSpec → List GoType × List (String × Nat) → List GoType × List (String × Nat)
  | [], st => st
  | ts :: rest, st =>
    let t := typeOfSpec gdoc single ts
    pass1Specs gdoc single rest (st.1 ++ [t], (t.name, st.1.length) :: st.2)

/-- One pass-1 step over one declaration. -/
def pass1Step (st : List GoType × List (String × Nat)) (d : GoDecl) :
    List GoType × List (String × Nat) :=
  match d with
  | .genType gdoc specs => pass1Specs gdoc (decide (specs.length = 1)) specs st
  | _ => st

/-- Pass 1 of `extractPackage` over the concatenated declaration stream of
the package's files. -/
def pass1 (decls : List GoDecl) : List GoType × List (String × Nat) :=
  decls.foldl pass1Step ([], [])

/-- The `Function` model built uniformly for every `FuncDecl` (receiver
not yet set). -/
def fnModelOf (fd : FuncDecl) : Function :=
  let pv := parseParams fd.params
  { name := fd.name, exported := isExported fd.name,
    doc := docText fd.doc none false, receiver := "",
    typeParams := parseTypeParams fd.typeParams,
    params := pv.1, results := parseResults fd.results, variadic := pv.2 }

/-- `pkgModel.Types[idx].Methods = append(..., fnModel)`. -/
def appendMethodAt : List GoType → Nat → Function → List GoType
  | [], _, _ => []
  | t :: ts, 0, fn => { t with methods := t.methods ++ [fn] } :: ts
  | t :: ts, i + 1, fn => t :: appendMethodAt ts i fn

/-- One pass-2 step of `extractPackage`: route one declaration. -/
def pass2Step (tbl : List (String × Nat)) (st : List GoType × List Function)
    (d : GoDecl) : List GoType × List Function :=
  match d with
  | .funcD fd =>
    let fn0 := fnModelOf fd
    match fd.recv with
    | [] => (st.1, st.2 ++ [fn0])
    | r :: _ =>
      let fn := { fn0 with receiver := exprString r.type }
      let recvName := receiverBaseName r.type
      if recvName = "" then (st.1, st.2 ++ [fn])
      else
        match tbl.lookup recvName with
        | some idx => (appendMethodAt st.1 idx fn, st.2)
        | none => (st.1, st.2 ++ [fn])
  | _ => st

/-- Pass 2 of `extractPackage` over the concatenated declaration stream. -/
def pass2 (tbl : List (String × Nat)) (types0 : List GoType) (decls : List GoDecl) :
    List GoType × List Function :=
  decls.foldl (pass2Step tbl) (types0, [])

/-! ## Sorting (`sortPackage` and the final package sort) -/

/-- Ascending name order on functions (`sort.Slice` comparator). -/
def fnLE (a b : Function) : Prop := a.name ≤ b.name

/-- Ascending name order on types. -/
def tyLE (a b : GoType) : Prop := a.name ≤ b.name

/-- Ascending name order on fields. -/
def fieldLE (a b : Field) : Prop := a.name ≤ b.name

/-- Ascending (import path, directory, name) lexicographic order on
packages (the `sort.Slice` at the end of `Generate`). -/
def pkgLE (a b : Package) : Prop :=
  a.importPath < b.importPath ∨
    (a.importPath = b.importPath ∧
      (a.dir < b.dir ∨ (a.dir = b.dir ∧ a.name ≤ b.name)))

instance : DecidableRel fnLE := fun a b => by unfold fnLE; infer_instance
instance : DecidableRel tyLE := fun a b => by unfold tyLE; infer_instance
instance : DecidableRel fieldLE := fun a b => by unfold fieldLE; infer_instance
instance : DecidableRel pkgLE := fun a b => by unfold pkgLE; infer_instance

/-- The per-type part of `sortPackage`: sort fields, embedded names and
methods of one type. -/
def innerSortType (t : GoType) : GoType :=
  { t with
    fields := t.fields.insertionSort fieldLE
    embedded := t.embedded.insertionSort (fun a b : String => a ≤ b)
    methods := t.methods.insertionSort fnLE }

/-- `sortPackage` from generate.go: sort files, functions and types, then
the per-type lists.  Go applies `sort.Slice` / `sort.Strings`; the model
uses insertion sort, a deterministic comparison sort. -/
def sortPackage (pkg : Package) : Package :=
  { pkg with
    files := pkg.files.insertionSort (fun a b : String => a ≤ b)
    functions := pkg.functions.insertionSort fnLE
    types := (pkg.types.insertionSort tyLE).map innerSortType }

/-! ## Files on disk, sniffing, and the file filter -/

/-- What scanning a file yields: an open error, or the successfully
scanned lines followed by either EOF (`readErr = false`) or a read error
(`readErr = true`). -/
inductive Sniff where
  | openErr
  | content (lines : List String) (readErr : Bool)
  deriving DecidableEq, Repr

instance {ε α : Type} [DecidableEq ε] [DecidableEq α] : DecidableEq (Except ε α) :=
  fun a b =>
    match a, b with
    | .error e, .error f =>
      if h : e = f then .isTrue (by rw [h]) else .isFalse (by simp [h])
    | .ok x, .ok y =>
      if h : x = y then .isTrue (by rw [h]) else .isFalse (by simp [h])
    | .error _, .ok _ => .isFalse (by simp)
    | .ok _, .error _ => .isFalse (by simp)

/-- A source file of a directory: its base name, what sniffing it yields,
and what parsing it yields (`Except.error` is a parse failure). -/
structure SrcFile where
  name : String
  sniff : Sniff
  parsed : Except Unit GoFileAst
  deriving DecidableEq, Repr

/-- The per-line test of `isGeneratedFile`. -/
def isGeneratedLine (line : String) : Bool :=
  strContains line "DO NOT EDIT" && strContains line "Code generated"

/-- The scanning loop of `isGeneratedFile`: up to 20 lines, stopping at
the first match; `scanner.Err()` is consulted only when the loop ran out
of input before reaching 20 lines and without a match. -/
def scanGenerated : Nat → List String → Bool → Except Unit Bool
  | 0, _, _ => .ok false
  | _ + 1, [], readErr => if readErr then .error () else .ok false
  | n + 1, line :: rest, readErr =>
    if isGeneratedLine line then .ok true else scanGenerated n rest readErr

/-- `isGeneratedFile` from generate.go. -/
def isGeneratedFile : Sniff → Except Unit Bool
  | .openErr => .error ()
  | .content lines readErr => scanGenerated 20 lines readErr

/-- The filter closure inside `parseDir`.  `onlyFile = none` embeds Go's
`onlyFile == ""`. -/
def fileFilter (opts : Options) (onlyFile : Option String) (f : SrcFile) : Bool :=
  if !(strHasSuffix f.name ".go") then false
  else if (match onlyFile with | some o => f.name != o | none => false) then false
  else if !opts.includeTests && strHasSuffix f.name "_test.go" then false
  else if !opts.includeGenerated then
    match isGeneratedFile f.sniff with
    | .ok true => false
    | _ => true
  else true

/-! ## Module locator (`moduleLocator`, `readModulePath`) -/

/-- The test `readModulePath` applies to one (already scanned) line: a
`module`-path line yields the trimmed path after the keyword. -/
def moduleLineValue (line : String) : Option String :=
  let l := goTrimSpace line
  if strHasPrefix l "module " then some (goTrimSpace (String.mk (l.data.drop 7)))
  else if strHasPrefix l ("module" ++ "\t") then some (goTrimSpace (String.mk (l.data.drop 7)))
  else none

/-- `readModulePath` from generate.go over the sniffed go.mod contents:
an open error, a scan error with no module line before it, and a
cleanly-scanned file with no module line all yield an error; the first
module line wins. -/
def readModulePath : Sniff → Except Unit String
  | .openErr => .error ()
  | .content lines _ =>
    match lines.findSome? moduleLineValue with
    | some p => .ok p
    | none => .error ()

/-- One directory on the upward walk of `moduleForDir`: its absolute path
and its `go.mod` file, when `os.Stat` finds one. -/
structure DirEnt where
  path : List String
  gomod : Option Sniff
  deriving DecidableEq, Repr

/-- `moduleLocator.moduleForDir` from generate.go, over the chain of
directories from the queried directory (head) up to the filesystem root
(last); the recursion stops at the first directory holding a go.mod.
The per-directory memoization cache is semantically transparent within a
run (the filesystem does not change) and is not modelled. -/
def moduleForDir : List DirEnt → Except Unit (Option Module)
  | [] => .ok none
  | e :: rest =>
    match e.gomod with
    | some g => (readModulePath g).map fun p => some { path := p, dir := e.path }
    | none => moduleForDir rest

/-- Resolution of the nearest enclosing go.mod, as tracked top-down by
the tree walk (the walk enters directories from the root, so the nearest
enclosing go.mod of the current directory is known without walking up). -/
def resolveModule : Option (List String × Sniff) → Except Unit (Option Module)
  | none => .ok none
  | some (d, g) => (readModulePath g).map fun p => some { path := p, dir := d }

/-- `mod != nil` import-path derivation inside `extractPackage`:
`filepath.Rel(mod.Dir, dir)` then `mod.Path` or `mod.Path + "/" + rel`. -/
def importPathFor (modPath : String) (modDir dir : List String) : String :=
  match goRel modDir dir with
  | [] => modPath
  | rel => modPath ++ "/" ++ String.intercalate "/" rel

/-! ## `extractPackage` -/

inductive GenErr where
  | noGoFiles
  | parseError
  | moduleError
  deriving DecidableEq, Repr

/-- `packageFiles` from generate.go: relative paths of the package's
files, sorted (the map iteration order is the list order here, made
irrelevant by the sort up to duplicate names, which cannot occur among
the keys of one directory's file map). -/
def packageFiles (relBase dir : List String) (fileNames : List String) : List String :=
  (fileNames.map fun n => toRelPath relBase (dir ++ [n])).insertionSort
    (fun a b : String => a ≤ b)

/-- The pure part of `extractPackage` (everything after its
`moduleForDir` call), over the package's files in map-iteration order. -/
def extractPackageCore (pkgName : String) (relBase dir : List String)
    (mod : Option Module) (files : List (String × GoFileAst)) : Package :=
  let decls := (files.map fun f => f.2).flatMap fun a => a.decls
  let p1 := pass1 decls
  let p2 := pass2 p1.2 p1.1 decls
  { name := pkgName
    importPath :=
      match mod with
      | none => ""
      | some m => importPathFor m.path m.dir dir
    dir := toRelPath relBase dir
    files := packageFiles relBase dir (files.map fun f => f.1)
    types := p2.1
    functions := p2.2 }

/-- `extractPackage` from generate.go: resolve the enclosing module, then
extract. -/
def extractPackage (modres : Except Unit (Option Module)) (pkgName : String)
    (relBase dir : List String) (files : List (String × GoFileAst)) :
    Except GenErr Package :=
  match modres with
  | .error _ => .error .moduleError
  | .ok mod => .ok (extractPackageCore pkgName relBase dir mod files)

/-! ## `parseDir` -/

/-- Whether a source file fails to parse. -/
def isParseFailure (f : SrcFile) : Bool :=
  match f.parsed with
  | .error _ => true
  | .ok _ => false

/-- The distinct declared package names of the parsed files, in order of
first occurrence (`parser.ParseDir` groups files by package clause). -/
def pkgNamesIn (files : List (String × GoFileAst)) : List String :=
  files.foldl (fun acc f => if acc.contains f.2.pkgName then acc else acc ++ [f.2.pkgName]) []

/-- The extraction loop of `parseDir`: one package per declared package
name, canonicalized, aborting on the first error. -/
def extractAll (modres : Except Unit (Option Module)) (relBase dir : List String)
    (asts : List (String × GoFileAst)) : List String → Except GenErr (List Package)
  | [] => .ok []
  | n :: ns =>
    match (extractPackage modres n relBase dir
        (asts.filter fun f => f.2.pkgName = n)).map sortPackage with
    | .error e => .error e
    | .ok p =>
      match extractAll modres relBase dir asts ns with
      | .error e => .error e
      | .ok ps => .ok (p :: ps)

/-- The (name, syntax tree) pairs of the files that parsed. -/
def parsedAsts (files : List SrcFile) : List (String × GoFileAst) :=
  files.filterMap fun f =>
    match f.parsed with
    | .ok a => some (f.name, a)
    | .error _ => none

/-- `parseDir` from generate.go: filter the directory's files, fail on a
parse error, signal `noGoFiles` when nothing is left, and otherwise
extract and canonicalize one package per declared package name. -/
def parseDir (opts : Options) (onlyFile : Option String) (relBase dir : List String)
    (nearestMod : Option (List String × Sniff)) (files : List SrcFile) :
    Except GenErr (List Package) :=
  if (files.filter (fileFilter opts onlyFile)).any isParseFailure then .error .parseError
  else if (parsedAsts (files.filter (fileFilter opts onlyFile))).isEmpty then .error .noGoFiles
  else
    extractAll (resolveModule nearestMod) relBase dir
      (parsedAsts (files.filter (fileFilter opts onlyFile)))
      (pkgNamesIn (parsedAsts (files.filter (fileFilter opts onlyFile))))

/-! ## The directory tree and the walk (`Generate`) -/

/-- A directory of the analyzed tree: its base name, its go.mod file (if
`os.Stat` finds one), its source files and its subdirectories. -/
inductive DirTree where
  | node (name : String) (gomod : Option Sniff) (files : List SrcFile) (subdirs : List DirTree)

def DirTree.name : DirTree → String
  | .node n _ _ _ => n

def DirTree.gomod : DirTree → Option Sniff
  | .node _ g _ _ => g

def DirTree.files : DirTree → List SrcFile
  | .node _ _ fs _ => fs

def DirTree.subdirs : DirTree → List DirTree
  | .node _ _ _ ds => ds

/-- The nearest enclosing go.mod after entering directory `dir`. -/
def updateNearest (dir : List String) (g : Option Sniff)
    (nm : Option (List String × Sniff)) : Option (List String × Sniff) :=
  match g with
  | some s => some (dir, s)
  | none => nm

mutual

/-- The `filepath.WalkDir` callback of `Generate` over a directory:
prune excluded names (`fs.SkipDir`), parse the directory (absorbing
`errNoGoFiles`), then visit the subdirectories. -/
def walkTree (opts : Options) (excluded : List String) (relBase parent : List String)
    (nm0 : Option (List String × Sniff)) : DirTree → Except GenErr (List Package)
  | .node name gomod files subdirs =>
    if excluded.contains name then .ok []
    else
      match parseDir opts none relBase (parent ++ [name])
          (updateNearest (parent ++ [name]) gomod nm0) files with
      | .error .noGoFiles =>
        walkSubdirs opts excluded relBase (parent ++ [name])
          (updateNearest (parent ++ [name]) gomod nm0) subdirs
      | .error e => .error e
      | .ok pkgs =>
        match walkSubdirs opts excluded relBase (parent ++ [name])
            (updateNearest (parent ++ [name]) gomod nm0) subdirs with
        | .error e => .error e
        | .ok rest => .ok (pkgs ++ rest)

/-- Walk a list of sibling subdirectories, concatenating their packages
and propagating the first fatal error. -/
def walkSubdirs (opts : Options) (excluded : List String) (relBase parent : List String)
    (nm : Option (List String × Sniff)) : List DirTree → Except GenErr (List Package)
  | [] => .ok []
  | t :: ts =>
    match walkTree opts excluded relBase parent nm t with
    | .error e => .error e
    | .ok ps =>
      match walkSubdirs opts excluded relBase parent nm ts with
      | .error e => .error e
      | .ok qs => .ok (ps ++ qs)

end

/-- `Generate` from generate.go.  `rootParent` is the absolute directory
containing the analysis root, `tree` the root directory itself,
`ancestorMod` the nearest go.mod strictly above the root (what the
upward `moduleForDir` walk would find beyond the tree), and `onlyFile`
is `some f` when the given root path was the file `f` inside `tree`
(single-file mode) rather than a directory. -/
def Generate (rootParent : List String) (tree : DirTree)
    (ancestorMod : Option (List String × Sniff)) (onlyFile : Option String)
    (opts0 : Options) : Except GenErr Model :=
  match resolveModule (updateNearest (rootParent ++ [tree.name]) tree.gomod ancestorMod) with
  | .error _ => .error .moduleError
  | .ok rootModule =>
    match (match onlyFile with
           | some f =>
             parseDir opts0.withDefaults (some f) (rootParent ++ [tree.name])
               (rootParent ++ [tree.name])
               (updateNearest (rootParent ++ [tree.name]) tree.gomod ancestorMod) tree.files
           | none =>
             walkTree opts0.withDefaults opts0.withDefaults.excludeDirNames
               (rootParent ++ [tree.name]) rootParent
               (updateNearest (rootParent ++ [tree.name]) tree.gomod ancestorMod) tree) with
    | .error e => .error e
    | .ok pkgs =>
      .ok { root :=
              joinAbs (match onlyFile with
                       | some f => rootParent ++ [tree.name] ++ [f]
                       | none => rootParent ++ [tree.name])
            module := rootModule
            packages := pkgs.insertionSort pkgLE }

/-! ## Order facts about the sort comparators -/

instance : IsTotal Function fnLE := ⟨fun a b => le_total a.name b.name⟩

instance : IsTrans Function fnLE := ⟨fun _ _ _ h h2 => le_trans h h2⟩

instance : IsTotal GoType tyLE := ⟨fun a b => le_total a.name b.name⟩

instance : IsTrans GoType tyLE := ⟨fun _ _ _ h h2 => le_trans h h2⟩

instance : IsTotal Field fieldLE := ⟨fun a b => le_total a.name b.name⟩

instance : IsTrans Field fieldLE := ⟨fun _ _ _ h h2 => le_trans h h2⟩

instance : IsTotal Package pkgLE := by
  constructor
  intro a b
  unfold pkgLE
  rcases lt_trichotomy a.importPath b.importPath with h | h | h
  · exact Or.inl (Or.inl h)
  · rcases lt_trichotomy a.dir b.dir with h2 | h2 | h2
    · exact Or.inl (Or.inr ⟨h, Or.inl h2⟩)
    · rcases le_total a.name b.name with h3 | h3
      · exact Or.inl (Or.inr ⟨h, Or.inr ⟨h2, h3⟩⟩)
      · exact Or.inr (Or.inr ⟨h.symm, Or.inr ⟨h2.symm, h3⟩⟩)
    · exact Or.inr (Or.inr ⟨h.symm, Or.inl h2⟩)
  · exact Or.inr (Or.inl h)

instance : IsTrans Package pkgLE := by
  constructor
  intro a b c hab hbc
  unfold pkgLE at *
  rcases hab with h1 | ⟨e1, hd1⟩
  · rcases hbc with h2 | ⟨e2, _⟩
    · exact Or.inl (h1.trans h2)
    · exact Or.inl (e2 ▸ h1)
  · rcases hbc with h2 | ⟨e2, hd2⟩
    · exact Or.inl (e1 ▸ h2)
    · refine Or.inr ⟨e1.trans e2, ?_⟩
      rcases hd1 with h1 | ⟨f1, hn1⟩
      · rcases hd2 with h2 | ⟨f2, _⟩
        · exact Or.inl (h1.trans h2)
        · exact Or.inl (f2 ▸ h1)
      · rcases hd2 with h2 | ⟨f2, hn2⟩
        · exact Or.inl (f1 ▸ h2)
        · exact Or.inr ⟨f1.trans f2, hn1.trans hn2⟩

/-- Two permuted lists, both sorted by a string key that is duplicate-free,
are equal. -/
theorem keyed_sorted_perm_eq {α : Type} (key : α → String) :
    ∀ {l1 l2 : List α}, List.Perm l1 l2 →
      l1.Pairwise (fun a b => key a ≤ key b) →
      l2.Pairwise (fun a b => key a ≤ key b) →
      (l1.map key).Nodup → l1 = l2
  | [], l2, p, _, _, _ => (p.symm.eq_nil).symm
  | a :: t1, [], p, _, _, _ => absurd p.length_eq (by simp)
  | a :: t1, b :: t2, p, s1, s2, nd => by
    have hab : a = b := by
      have ha : a ∈ b :: t2 := p.subset (List.mem_cons_self a t1)
      rcases List.mem_cons.mp ha with h | h
      · exact h
      · have hb : b ∈ a :: t1 := p.symm.subset (List.mem_cons_self b t2)
        rcases List.mem_cons.mp hb with h2 | h2
        · exact h2.symm
        · have h3 : key a ≤ key b := (List.pairwise_cons.mp s1).1 b h2
          have h4 : key b ≤ key a := (List.pairwise_cons.mp s2).1 a h
          have h5 : key a = key b := le_antisymm h3 h4
          have h6 : key a ∉ t1.map key := by
            have nd2 : (key a :: t1.map key).Nodup := by simpa using nd
            exact (List.nodup_cons.mp nd2).1
          exact absurd (h5 ▸ List.mem_map_of_mem key h2) h6
    subst hab
    have hrest := keyed_sorted_perm_eq key (p.cons_inv)
      (List.pairwise_cons.mp s1).2 (List.pairwise_cons.mp s2).2
      (List.nodup_cons.mp ((List.map_cons key a t1) ▸ nd)).2
    rw [hrest]

/-- Every component list of a `sortPackage` result is sorted as the
canonicalizer promises. -/
theorem sortPackage_sorted (q : Package) :
    (sortPackage q).files.Sorted (fun a b : String => a ≤ b)
  ∧ (sortPackage q).functions.Sorted fnLE
  ∧ (sortPackage q).types.Sorted tyLE
  ∧ ∀ t ∈ (sortPackage q).types,
      t.fields.Sorted fieldLE ∧ t.embedded.Sorted (fun a b : String => a ≤ b)
        ∧ t.methods.Sorted fnLE := by
  refine ⟨?_, ?_, ?_, ?_⟩
  · exact List.sorted_insertionSort _ _
  · exact List.sorted_insertionSort _ _
  · exact List.Pairwise.map _ (fun a b h => h) (List.sorted_insertionSort tyLE q.types)
  · intro t ht
    rcases List.mem_map.mp ht with ⟨t0, _, rfl⟩
    exact ⟨List.sorted_insertionSort _ _, List.sorted_insertionSort _ _,
      List.sorted_insertionSort _ _⟩

/-! ## Characterizations of the two extraction passes -/

/-- The type records pass 1 builds from one declaration. -/
def declTypes (d : GoDecl) : List GoType :=
  match d with
  | .genType gdoc specs => specs.map (typeOfSpec gdoc (decide (specs.length = 1)))
  | _ => []

/-- The method `Function` built for a receiver field `r`. -/
def recvFn (fd : FuncDecl) (r : GoField) : Function :=
  { fnModelOf fd with receiver := exprString r.type }

/-- The function record pass 2 appends to the free-function list for one
declaration, when it does. -/
def freeRouted (tbl : List (String × Nat)) (d : GoDecl) : Option Function :=
  match d with
  | .funcD fd =>
    match fd.recv with
    | [] => some (fnModelOf fd)
    | r :: _ =>
      if receiverBaseName r.type = "" then some (recvFn fd r)
      else
        match tbl.lookup (receiverBaseName r.type) with
        | some _ => none
        | none => some (recvFn fd r)
  | _ => none

/-- The method record pass 2 appends to the type at index `j` for one
declaration, when it does. -/
def idxRouted (tbl : List (String × Nat)) (j : Nat) (d : GoDecl) : Option Function :=
  match d with
  | .funcD fd =>
    match fd.recv with
    | [] => none
    | r :: _ =>
      if receiverBaseName r.type = "" then none
      else
        match tbl.lookup (receiverBaseName r.type) with
        | some i => if i = j then some (recvFn fd r) else none
        | none => none
  | _ => none

theorem pass1Specs_types (gdoc : Option String) (single : Bool) :
    ∀ (specs : List TypeSpec) (st : List GoType × List (String × Nat)),
      (pass1Specs gdoc single specs st).1 = st.1 ++ specs.map (typeOfSpec gdoc single)
  | [], st => by simp [pass1Specs]
  | ts :: rest, st => by
    rw [pass1Specs, pass1Specs_types gdoc single rest]
    simp [List.append_assoc]

theorem pass1Step_types (st : List GoType × List (String × Nat)) (d : GoDecl) :
    (pass1Step st d).1 = st.1 ++ declTypes d := by
  cases d <;> simp [pass1Step, declTypes, pass1Specs_types]

theorem pass1_fold_types :
    ∀ (decls : List GoDecl) (st : List GoType × List (String × Nat)),
      (decls.foldl pass1Step st).1 = st.1 ++ decls.flatMap declTypes
  | [], st => by simp
  | d :: ds, st => by
    rw [List.foldl_cons, pass1_fold_types ds]
    simp [pass1Step_types, List.append_assoc]

/-- Pass 1 collects exactly the type records of the declaration stream,
in order. -/
theorem pass1_types (decls : List GoDecl) :
    (pass1 decls).1 = decls.flatMap declTypes := by
  simpa using pass1_fold_types decls ([], [])

/-- The pass-1 index table is consistent: every entry points at a type of
that name. -/
def tblInv (types : List GoType) (tbl : List (String × Nat)) : Prop :=
  ∀ p ∈ tbl, ∃ t, types[p.2]? = some t ∧ t.name = p.1

theorem tblInv_snoc {types tbl} (t : GoType) (h : tblInv types tbl) :
    tblInv (types ++ [t]) ((t.name, types.length) :: tbl) := by
  intro p hp
  rcases List.mem_cons.mp hp with rfl | hp
  · exact ⟨t, List.getElem?_concat_length types t, rfl⟩
  · rcases h p hp with ⟨u, hu, hn⟩
    have hlt : p.2 < types.length := by
      rcases List.getElem?_eq_some.mp hu with ⟨h2, _⟩
      exact h2
    exact ⟨u, by rw [List.getElem?_append_left hlt]; exact hu, hn⟩

theorem pass1Specs_tblInv (gdoc : Option String) (single : Bool) :
    ∀ (specs : List TypeSpec) (st : List GoType × List (String × Nat)),
      tblInv st.1 st.2 →
      tblInv (pass1Specs gdoc single specs st).1 (pass1Specs gdoc single specs st).2
  | [], _, h => h
  | _ :: rest, st, h =>
    pass1Specs_tblInv gdoc single rest _ (tblInv_snoc _ h)

theorem pass1Step_tblInv (st : List GoType × List (String × Nat)) (d : GoDecl)
    (h : tblInv st.1 st.2) : tblInv (pass1Step st d).1 (pass1Step st d).2 := by
  cases d with
  | genType gdoc specs => exact pass1Specs_tblInv gdoc _ specs st h
  | funcD fd => exact h
  | otherD => exact h

theorem pass1_fold_tblInv :
    ∀ (decls : List GoDecl) (st : List GoType × List (String × Nat)),
      tblInv st.1 st.2 →
      tblInv (decls.foldl pass1Step st).1 (decls.foldl pass1Step st).2
  | [], _, h => h
  | d :: ds, st, h => pass1_fold_tblInv ds _ (pass1Step_tblInv st d h)

theorem pass1_tblInv (decls : List GoDecl) : tblInv (pass1 decls).1 (pass1 decls).2 :=
  pass1_fold_tblInv decls ([], []) (by intro p hp; cases hp)

theorem perm_append_swap {α : Type} (a b c : List α) :
    List.Perm (a ++ (b ++ c)) (b ++ (a ++ c)) := by
  simp only [← List.append_assoc]
  exact List.Perm.append_right c List.perm_append_comm

theorem pass1Specs_keys (gdoc : Option String) (single : Bool) :
    ∀ (specs : List TypeSpec) (st : List GoType × List (String × Nat)),
      List.Perm ((pass1Specs gdoc single specs st).2.map Prod.fst)
        ((specs.map (typeOfSpec gdoc single)).map GoType.name ++ st.2.map Prod.fst)
  | [], st => by simp [pass1Specs]
  | ts :: rest, st => by
    rw [pass1Specs]
    refine (pass1Specs_keys gdoc single rest _).trans ?_
    simp only [List.map_cons, List.cons_append]
    exact List.perm_middle

theorem pass1Step_keys (st : List GoType × List (String × Nat)) (d : GoDecl) :
    List.Perm ((pass1Step st d).2.map Prod.fst)
      ((declTypes d).map GoType.name ++ st.2.map Prod.fst) := by
  cases d with
  | genType gdoc specs => simpa [pass1Step, declTypes] using pass1Specs_keys gdoc _ specs st
  | funcD fd => simp [pass1Step, declTypes]
  | otherD => simp [pass1Step, declTypes]

theorem pass1_fold_keys :
    ∀ (decls : List GoDecl) (st : List GoType × List (String × Nat)),
      List.Perm ((decls.foldl pass1Step st).2.map Prod.fst)
        ((decls.flatMap declTypes).map GoType.name ++ st.2.map Prod.fst)
  | [], st => by simp
  | d :: ds, st => by
    rw [List.foldl_cons]
    refine (pass1_fold_keys ds _).trans ?_
    refine (List.Perm.append_left _ (pass1Step_keys st d)).trans ?_
    rw [List.flatMap_cons, List.map_append, List.append_assoc]
    exact perm_append_swap _ _ _

/-- The keys of the pass-1 table are exactly the names of the pass-1
types, as a multiset. -/
theorem pass1_keys (decls : List GoDecl) :
    List.Perm ((pass1 decls).2.map Prod.fst) (((pass1 decls).1).map GoType.name) := by
  rw [pass1_types]
  simpa using pass1_fold_keys decls ([], [])

/-- `List.lookup` success yields a member. -/
theorem lookup_mem : ∀ {l : List (String × Nat)} {k : String} {v : Nat},
    List.lookup k l = some v → (k, v) ∈ l
  | [], _, _, h => by cases h
  | (a, b) :: es, k, v, h => by
    rw [List.lookup_cons] at h
    by_cases hk : k = a
    · subst hk
      simp only [beq_self_eq_true] at h
      cases h
      exact List.mem_cons_self _ _
    · have hne : (k == a) = false := by simp [hk]
      rw [hne] at h
      exact List.mem_cons_of_mem _ (lookup_mem h)

/-- `List.lookup` failure means the key is absent. -/
theorem lookup_eq_none_iff : ∀ {l : List (String × Nat)} {k : String},
    List.lookup k l = none ↔ ∀ p ∈ l, p.1 ≠ k
  | [], k => by simp
  | (a, b) :: es, k => by
    rw [List.lookup_cons]
    by_cases hk : k = a
    · subst hk
      simp only [beq_self_eq_true]
      constructor
      · intro h; simp at h
      · intro h
        exact absurd rfl (h (k, b) (List.mem_cons_self _ _))
    · have hne : (k == a) = false := by simp [hk]
      rw [hne]
      rw [lookup_eq_none_iff]
      constructor
      · intro h p hp
        rcases List.mem_cons.mp hp with rfl | hp
        · exact fun he => hk he.symm
        · exact h p hp
      · intro h p hp
        exact h p (List.mem_cons_of_mem _ hp)

theorem appendMethodAt_getq :
    ∀ (ts : List GoType) (i : Nat) (fn : Function) (j : Nat),
      (appendMethodAt ts i fn)[j]? =
        if i = j then (ts[j]?).map (fun t => { t with methods := t.methods ++ [fn] })
        else ts[j]?
  | [], i, fn, j => by cases i <;> simp [appendMethodAt, apply_ite]
  | t :: ts, 0, fn, 0 => by simp [appendMethodAt]
  | t :: ts, 0, fn, j + 1 => by simp [appendMethodAt]
  | t :: ts, i + 1, fn, 0 => by simp [appendMethodAt]
  | t :: ts, i + 1, fn, j + 1 => by
    simp only [appendMethodAt, List.getElem?_cons_succ]
    rw [appendMethodAt_getq ts i fn j]
    simp

/-- Pass 2 appends to the free-function list exactly the records
`freeRouted` selects, in declaration order. -/
theorem pass2_fold_functions :
    ∀ (decls : List GoDecl) (tbl : List (String × Nat)) (ts : List GoType)
      (fns : List Function),
      (decls.foldl (pass2Step tbl) (ts, fns)).2 = fns ++ decls.filterMap (freeRouted tbl)
  | [], _, _, _ => by simp
  | d :: ds, tbl, ts, fns => by
    rw [List.foldl_cons, List.filterMap_cons]
    cases d with
    | genType gdoc specs =>
      rw [pass2_fold_functions ds tbl]
      rfl
    | otherD =>
      rw [pass2_fold_functions ds tbl]
      rfl
    | funcD fd =>
      cases hr : fd.recv with
      | nil =>
        show (ds.foldl (pass2Step tbl) (pass2Step tbl (ts, fns) (.funcD fd))).2 = _
        rw [pass2Step, hr]
        rw [pass2_fold_functions ds tbl]
        simp [freeRouted, hr]
      | cons r rrest =>
        show (ds.foldl (pass2Step tbl) (pass2Step tbl (ts, fns) (.funcD fd))).2 = _
        simp only [pass2Step, hr]
        by_cases hb : receiverBaseName r.type = ""
        · rw [if_pos hb, pass2_fold_functions ds tbl]
          simp [freeRouted, hr, hb, recvFn]
        · rw [if_neg hb]
          cases hl : List.lookup (receiverBaseName r.type) tbl with
          | some idx =>
            rw [pass2_fold_functions ds tbl]
            simp [freeRouted, hr, hb, hl]
          | none =>
            rw [pass2_fold_functions ds tbl]
            simp [freeRouted, hr, hb, hl, recvFn]

/-- Pass 2 appends to the type at each index exactly the records
`idxRouted` selects for that index, in declaration order. -/
theorem pass2_fold_types :
    ∀ (decls : List GoDecl) (tbl : List (String × Nat)) (ts : List GoType)
      (fns : List Function) (j : Nat),
      ((decls.foldl (pass2Step tbl) (ts, fns)).1)[j]? =
        (ts[j]?).map fun t =>
          { t with methods := t.methods ++ decls.filterMap (idxRouted tbl j) }
  | [], _, ts, _, j => by
    rw [List.foldl_nil, List.filterMap_nil]
    cases h : ts[j]? with
    | none => rfl
    | some t => simp
  | d :: ds, tbl, ts, fns, j => by
    rw [List.foldl_cons, List.filterMap_cons]
    cases d with
    | genType gdoc specs =>
      rw [pass2_fold_types ds tbl]
      rfl
    | otherD =>
      rw [pass2_fold_types ds tbl]
      rfl
    | funcD fd =>
      cases hr : fd.recv with
      | nil =>
        show ((ds.foldl (pass2Step tbl) (pass2Step tbl (ts, fns) (.funcD fd))).1)[j]? = _
        rw [pass2Step, hr]
        rw [pass2_fold_types ds tbl]
        simp [idxRouted, hr]
      | cons r rrest =>
        show ((ds.foldl (pass2Step tbl) (pass2Step tbl (ts, fns) (.funcD fd))).1)[j]? = _
        simp only [pass2Step, hr]
        by_cases hb : receiverBaseName r.type = ""
        · rw [if_pos hb, pass2_fold_types ds tbl]
          simp [idxRouted, hr, hb]
        · rw [if_neg hb]
          cases hl : List.lookup (receiverBaseName r.type) tbl with
          | none =>
            rw [pass2_fold_types ds tbl]
            simp [idxRouted, hr, hb, hl]
          | some i =>
            rw [pass2_fold_types ds tbl, appendMethodAt_getq]
            by_cases hij : i = j
            · subst hij
              rw [if_pos rfl]
              have : idxRouted tbl i (.funcD fd) = some (recvFn fd r) := by
                simp [idxRouted, hr, hb, hl]
              rw [this]
              cases ts[i]? with
              | none => rfl
              | some t => simp [recvFn]
            · rw [if_neg hij]
              have : idxRouted tbl j (.funcD fd) = none := by
                simp [idxRouted, hr, hb, hl, hij]
              rw [this]

/-! ## Provenance of produced packages -/

mutual

/-- All source files of a subtree. -/
def treeFiles : DirTree → List SrcFile
  | .node _ _ fs subs => fs ++ treeFilesList subs

def treeFilesList : List DirTree → List SrcFile
  | [] => []
  | t :: ts => treeFiles t ++ treeFilesList ts

end

/-- A produced package is the canonicalized extraction of some
directory's grouped files, each of which parsed from a file of the given
pool. -/
def pkgFromPool (relBase : List String) (pool : List SrcFile) (pkg : Package) : Prop :=
  ∃ n dir mod fs, pkg = sortPackage (extractPackageCore n relBase dir mod fs) ∧
    ∀ p ∈ fs, ∃ sf ∈ pool, sf.parsed = .ok p.2

theorem pkgFromPool_mono {relBase : List String} {pool pool2 : List SrcFile} {pkg : Package}
    (hsub : ∀ sf ∈ pool, sf ∈ pool2) (h : pkgFromPool relBase pool pkg) :
    pkgFromPool relBase pool2 pkg := by
  rcases h with ⟨n, dir, mod, fs, he, hp⟩
  refine ⟨n, dir, mod, fs, he, fun p hpf => ?_⟩
  rcases hp p hpf with ⟨sf, hsf, hok⟩
  exact ⟨sf, hsub sf hsf, hok⟩

theorem extractAll_mem (modres : Except Unit (Option Module)) (relBase dir : List String)
    (asts : List (String × GoFileAst)) :
    ∀ (names : List String) (l : List Package),
      extractAll modres relBase dir asts names = .ok l →
      ∀ pkg ∈ l, ∃ n mod, modres = .ok mod ∧
        pkg = sortPackage (extractPackageCore n relBase dir mod
          (asts.filter fun f => f.2.pkgName = n))
  | [], l, h, pkg, hm => by
    cases h
    cases hm
  | n :: ns, l, h, pkg, hm => by
    rw [extractAll] at h
    cases modres with
    | error u =>
      simp only [extractPackage, Except.map] at h
      exact Except.noConfusion h
    | ok mod =>
      simp only [extractPackage, Except.map] at h
      cases hrec : extractAll (Except.ok mod) relBase dir asts ns with
      | error e =>
        rw [hrec] at h
        exact Except.noConfusion h
      | ok ps =>
        rw [hrec] at h
        cases h
        rcases List.mem_cons.mp hm with rfl | hm2
        · exact ⟨n, mod, rfl, rfl⟩
        · exact extractAll_mem (Except.ok mod) relBase dir asts ns ps hrec pkg hm2

theorem parseDir_mem {opts : Options} {onlyFile : Option String} {relBase dir : List String}
    {nm : Option (List String × Sniff)} {files : List SrcFile} {l : List Package}
    (h : parseDir opts onlyFile relBase dir nm files = .ok l) :
    ∀ pkg ∈ l, pkgFromPool relBase files pkg := by
  intro pkg hm
  rw [parseDir] at h
  by_cases h1 : (files.filter (fileFilter opts onlyFile)).any isParseFailure
  · rw [if_pos h1] at h
    exact Except.noConfusion h
  · rw [if_neg h1] at h
    by_cases h2 : (parsedAsts (files.filter (fileFilter opts onlyFile))).isEmpty
    · rw [if_pos h2] at h
      exact Except.noConfusion h
    · rw [if_neg h2] at h
      rcases extractAll_mem _ _ _ _ _ _ h pkg hm with ⟨n, mod, _, rfl⟩
      refine ⟨n, dir, mod, _, rfl, ?_⟩
      intro p hp
      have hp2 := (List.mem_filter.mp hp).1
      rw [parsedAsts] at hp2
      rcases List.mem_filterMap.mp hp2 with ⟨sf, hsf, heq⟩
      have hsf2 : sf ∈ files := (List.mem_filter.mp hsf).1
      cases hparse : sf.parsed with
      | ok a =>
        rw [hparse] at heq
        cases heq
        exact ⟨sf, hsf2, hparse⟩
      | error e =>
        rw [hparse] at heq
        exact Option.noConfusion heq

mutual

theorem walkTree_mem (opts : Options) (excluded : List String)
    (relBase parent : List String) (nm0 : Option (List String × Sniff)) :
    ∀ (t : DirTree) (l : List Package),
      walkTree opts excluded relBase parent nm0 t = .ok l →
      ∀ pkg ∈ l, pkgFromPool relBase (treeFiles t) pkg
  | .node name gomod files subdirs, l, h, pkg, hm => by
    rw [walkTree] at h
    by_cases hx : excluded.contains name
    · rw [if_pos hx] at h
      cases h
      cases hm
    · rw [if_neg hx] at h
      cases hpd : parseDir opts none relBase (parent ++ [name])
          (updateNearest (parent ++ [name]) gomod nm0) files with
      | error e =>
        cases e with
        | noGoFiles =>
          rw [hpd] at h
          have := walkSubdirs_mem opts excluded relBase (parent ++ [name])
            (updateNearest (parent ++ [name]) gomod nm0) subdirs l h pkg hm
          refine pkgFromPool_mono (fun sf hs => ?_) this
          rw [treeFiles]
          exact List.mem_append_right _ hs
        | parseError => rw [hpd] at h; exact Except.noConfusion h
        | moduleError => rw [hpd] at h; exact Except.noConfusion h
      | ok pkgs =>
        rw [hpd] at h
        cases hws : walkSubdirs opts excluded relBase (parent ++ [name])
            (updateNearest (parent ++ [name]) gomod nm0) subdirs with
        | error e => rw [hws] at h; exact Except.noConfusion h
        | ok rest =>
          rw [hws] at h
          cases h
          rcases List.mem_append.mp hm with hm2 | hm2
          · refine pkgFromPool_mono (fun sf hs => ?_) (parseDir_mem hpd pkg hm2)
            rw [treeFiles]
            exact List.mem_append_left _ hs
          · have := walkSubdirs_mem opts excluded relBase (parent ++ [name])
              (updateNearest (parent ++ [name]) gomod nm0) subdirs rest hws pkg hm2
            refine pkgFromPool_mono (fun sf hs => ?_) this
            rw [treeFiles]
            exact List.mem_append_right _ hs

theorem walkSubdirs_mem (opts : Options) (excluded : List String)
    (relBase parent : List String) (nm : Option (List String × Sniff)) :
    ∀ (ts : List DirTree) (l : List Package),
      walkSubdirs opts excluded relBase parent nm ts = .ok l →
      ∀ pkg ∈ l, pkgFromPool relBase (treeFilesList ts) pkg
  | [], l, h, pkg, hm => by
    cases h
    cases hm
  | t :: ts, l, h, pkg, hm => by
    rw [walkSubdirs] at h
    cases hwt : walkTree opts excluded relBase parent nm t with
    | error e => rw [hwt] at h; exact Except.noConfusion h
    | ok ps =>
      rw [hwt] at h
      cases hws : walkSubdirs opts excluded relBase parent nm ts with
      | error e => rw [hws] at h; exact Except.noConfusion h
      | ok qs =>
        rw [hws] at h
        cases h
        rcases List.mem_append.mp hm with hm2 | hm2
        · refine pkgFromPool_mono (fun sf hs => ?_)
            (walkTree_mem opts excluded relBase parent nm t ps hwt pkg hm2)
          rw [treeFilesList]
          exact List.mem_append_left _ hs
        · refine pkgFromPool_mono (fun sf hs => ?_)
            (walkSubdirs_mem opts excluded relBase parent nm ts qs hws pkg hm2)
          rw [treeFilesList]
          exact List.mem_append_right _ hs

end

/-- Every package of a successful `Generate` run has provenance in the
analyzed tree's files. -/
theorem Generate_mem {rootParent : List String} {tree : DirTree}
    {ancestorMod : Option (List String × Sniff)} {onlyFile : Option String}
    {opts0 : Options} {model : Model}
    (h : Generate rootParent tree ancestorMod onlyFile opts0 = .ok model) :
    ∀ pkg ∈ model.packages,
      pkgFromPool (rootParent ++ [tree.name]) (treeFiles tree) pkg := by
  intro pkg hm
  rw [Generate.eq_def] at h
  cases hmod : resolveModule (updateNearest (rootParent ++ [tree.name]) tree.gomod ancestorMod) with
  | error u => rw [hmod] at h; exact Except.noConfusion h
  | ok rootModule =>
    rw [hmod] at h
    cases onlyFile with
    | some f =>
      simp only at h
      cases hpd : parseDir opts0.withDefaults (some f) (rootParent ++ [tree.name])
          (rootParent ++ [tree.name])
          (updateNearest (rootParent ++ [tree.name]) tree.gomod ancestorMod) tree.files with
      | error e => rw [hpd] at h; exact Except.noConfusion h
      | ok pkgs =>
        rw [hpd] at h
        cases h
        have hm2 : pkg ∈ pkgs :=
          (List.perm_insertionSort pkgLE pkgs).subset hm
        refine pkgFromPool_mono (fun sf hs => ?_) (parseDir_mem hpd pkg hm2)
        cases tree with
        | node nm g fs subs =>
          rw [treeFiles]
          exact List.mem_append_left _ hs
    | none =>
      simp only at h
      cases hwt : walkTree opts0.withDefaults opts0.withDefaults.excludeDirNames
          (rootParent ++ [tree.name]) rootParent
          (updateNearest (rootParent ++ [tree.name]) tree.gomod ancestorMod) tree with
      | error e => rw [hwt] at h; exact Except.noConfusion h
      | ok pkgs =>
        rw [hwt] at h
        cases h
        have hm2 : pkg ∈ pkgs :=
          (List.perm_insertionSort pkgLE pkgs).subset hm
        exact walkTree_mem _ _ _ _ _ tree pkgs hwt pkg hm2

/-! ## Small bridges into `extractPackageCore` -/

/-- The concatenated declaration stream of a package's files. -/
def declsOf (files : List (String × GoFileAst)) : List GoDecl :=
  (files.map fun f => f.2).flatMap fun a => a.decls

theorem extractPackageCore_types (pkgName : String) (relBase dir : List String)
    (mod : Option Module) (files : List (String × GoFileAst)) :
    (extractPackageCore pkgName relBase dir mod files).types =
      (pass2 (pass1 (declsOf files)).2 (pass1 (declsOf files)).1 (declsOf files)).1 := rfl

theorem extractPackageCore_functions (pkgName : String) (relBase dir : List String)
    (mod : Option Module) (files : List (String × GoFileAst)) :
    (extractPackageCore pkgName relBase dir mod files).functions =
      (pass2 (pass1 (declsOf files)).2 (pass1 (declsOf files)).1 (declsOf files)).2 := rfl

theorem extractPackageCore_importPath (pkgName : String) (relBase dir : List String)
    (mod : Option Module) (files : List (String × GoFileAst)) :
    (extractPackageCore pkgName relBase dir mod files).importPath =
      (match mod with
       | none => ""
       | some m => importPathFor m.path m.dir dir) := rfl

/-! ## Sample inputs used by the witnesses -/

/-- Convenience: an `ast.Field` with only names and a type. -/
def gfield (ns : List String) (t : GoExpr) : GoField := ⟨ns, t, none, none, none⟩

/-- The receiver field `(b *Box)`. -/
def wRecvField : GoField := gfield ["b"] (.star (.ident "Box"))

/-- The declaration `func (b *Box) Double() int`. -/
def wDoubleDecl : FuncDecl :=
  ⟨"Double", none, [wRecvField], [], [], [gfield [] (.ident "int")]⟩

/-- A file of package `sample`: `type Box struct { Value int }` and
`func (b *Box) Double() int`. -/
def wBoxAst : GoFileAst :=
  ⟨"sample",
   [.genType none [⟨"Box", false, none, [], .structU [gfield ["Value"] (.ident "int")]⟩],
    .funcD wDoubleDecl]⟩

/-- The same content as a source file on disk. -/
def wBoxFile : SrcFile :=
  ⟨"box.go", .content ["package sample"] false, .ok wBoxAst⟩

/-- A directory holding just `wBoxFile`. -/
def wTree : DirTree := .node "proj" none [wBoxFile] []

/-- Zero options (defaults apply). -/
def wOpts : Options := ⟨false, false, [], ""⟩

/-! ## Claims -/

/-- C4.  `kindForTypeSpec` classifies a type spec as alias exactly when it
uses alias-assignment syntax (regardless of the underlying form), else as
struct for a struct underlying type, else as interface for an interface
underlying type, and otherwise as `other`. -/
theorem kind_classification (ts : TypeSpec) :
    (kindForTypeSpec ts = .alias ↔ ts.assign = true) ∧
    (kindForTypeSpec ts = .struct ↔
      ts.assign = false ∧ ∃ fs, ts.underlying = .structU fs) ∧
    (kindForTypeSpec ts = .interface ↔
      ts.assign = false ∧ ∃ ms, ts.underlying = .interfaceU ms) ∧
    (kindForTypeSpec ts = .other ↔
      ts.assign = false ∧ ∃ e, ts.underlying = .otherU e) := by
  obtain ⟨name, assign, doc, tps, u⟩ := ts
  cases assign <;> cases u <;> simp [kindForTypeSpec]

/-- C3.  A directory whose name is in the exclusion set is pruned: the
walk yields no packages from it and never descends into it — the result
is `.ok []` for every possible content of the directory and its
subtrees, so excluded subtrees contribute zero packages to the model. -/
theorem excluded_dir_contributes_nothing (opts : Options) (excluded : List String)
    (relBase parent : List String) (nm : Option (List String × Sniff))
    (name : String) (gomod : Option Sniff) (files : List SrcFile)
    (subdirs : List DirTree) (h : name ∈ excluded) :
    walkTree opts excluded relBase parent nm (.node name gomod files subdirs) = .ok [] := by
  rw [walkTree, if_pos (List.elem_eq_true_of_mem h)]

/-- Witness for C3 at a concrete excluded directory with source files. -/
theorem excluded_dir_contributes_nothing_witness :
    walkTree wOpts.withDefaults ["vendor"] ["home"] ["home"] none
      (.node "vendor" none [wBoxFile] []) = .ok [] :=
  excluded_dir_contributes_nothing wOpts.withDefaults ["vendor"] ["home"] ["home"] none
    "vendor" none [wBoxFile] [] (by decide)

/-- C1.  Method binding: `receiverBaseName` unwraps pointer, generic
instantiation (one or more type arguments) and parenthesization down to
a base identifier; a function declaration with a non-empty receiver list
lands in the method list of the pass-1 type the index table names when
the base identifier resolves, and in the package's free-function list
when the base identifier is empty or unresolvable — it is never dropped
and extraction never fails on it. -/
theorem method_binding (pkgName : String) (relBase dir : List String)
    (mod : Option Module) (files : List (String × GoFileAst)) (fd : FuncDecl)
    (r : GoField) (rs : List GoField)
    (hmem : GoDecl.funcD fd ∈ declsOf files) (hrecv : fd.recv = r :: rs) :
    ((∀ e, receiverBaseName (.star e) = receiverBaseName e) ∧
     (∀ e a, receiverBaseName (.indexOne e a) = receiverBaseName e) ∧
     (∀ e s, receiverBaseName (.indexMany e s) = receiverBaseName e) ∧
     (∀ e, receiverBaseName (.paren e) = receiverBaseName e) ∧
     (∀ n, receiverBaseName (.ident n) = n)) ∧
    (∀ idx, receiverBaseName r.type ≠ "" →
      List.lookup (receiverBaseName r.type) (pass1 (declsOf files)).2 = some idx →
      ∃ t, (extractPackageCore pkgName relBase dir mod files).types[idx]? = some t ∧
        t.name = receiverBaseName r.type ∧ recvFn fd r ∈ t.methods) ∧
    (receiverBaseName r.type = "" ∨
        List.lookup (receiverBaseName r.type) (pass1 (declsOf files)).2 = none →
      recvFn fd r ∈ (extractPackageCore pkgName relBase dir mod files).functions) := by
  refine ⟨⟨fun e => rfl, fun e a => rfl, fun e s => rfl, fun e => rfl, fun n => rfl⟩, ?_, ?_⟩
  · intro idx hb hl
    rcases pass1_tblInv (declsOf files) _ (lookup_mem hl) with ⟨t0, hT, hname⟩
    rw [extractPackageCore_types]
    rw [pass2]
    rw [pass2_fold_types (declsOf files) (pass1 (declsOf files)).2 (pass1 (declsOf files)).1 [] idx]
    rw [hT]
    refine ⟨_, rfl, hname, ?_⟩
    have hroute : idxRouted (pass1 (declsOf files)).2 idx (.funcD fd) = some (recvFn fd r) := by
      simp [idxRouted, hrecv, hb, hl]
    exact List.mem_append_right _ (List.mem_filterMap.mpr ⟨_, hmem, hroute⟩)
  · intro hfree
    rw [extractPackageCore_functions, pass2]
    rw [pass2_fold_functions (declsOf files) (pass1 (declsOf files)).2 (pass1 (declsOf files)).1 []]
    have hroute : freeRouted (pass1 (declsOf files)).2 (.funcD fd) = some (recvFn fd r) := by
      rcases hfree with hb | hl
      · simp [freeRouted, hrecv, hb]
      · by_cases hb : receiverBaseName r.type = ""
        · simp [freeRouted, hrecv, hb]
        · simp [freeRouted, hrecv, hb, hl]
    exact List.mem_append_right _ (List.mem_filterMap.mpr ⟨_, hmem, hroute⟩)

/-- Witness for C1: the `Double` method of the sample file binds into the
`Box` type. -/
theorem method_binding_witness :
    ∃ t, (extractPackageCore "sample" ["home", "proj"] ["home", "proj"] none
        [("box.go", wBoxAst)]).types[0]? = some t ∧
      t.name = "Box" ∧ recvFn wDoubleDecl wRecvField ∈ t.methods :=
  (method_binding "sample" ["home", "proj"] ["home", "proj"] none [("box.go", wBoxAst)]
    wDoubleDecl wRecvField [] (by decide) (by decide)).2.1 0 (by decide) (by decide)

/-! ## Path lemmas for the import-path claim -/

theorem dropCommonPre_append : ∀ (base extra : List String),
    dropCommonPre base (base ++ extra) = ([], extra)
  | [], extra => by
    cases extra with
    | nil => rfl
    | cons e es => rfl
  | b :: bs, extra => by
    simp only [List.cons_append, dropCommonPre, if_pos rfl]
    exact dropCommonPre_append bs extra

theorem goRel_append (base extra : List String) : goRel base (base ++ extra) = extra := by
  rw [goRel, dropCommonPre_append]
  rfl

/-- C8.  Import-path derivation: with no enclosing module the import path
is empty; under a module declared at the analyzed directory itself it is
the module path; under a module declared at a proper ancestor it is the
module path, a slash, and the slash-joined relative directory. -/
theorem import_path_derivation (pkgName : String) (relBase dir : List String)
    (mod : Option Module) (files : List (String × GoFileAst)) :
    (mod = none → (extractPackageCore pkgName relBase dir mod files).importPath = "") ∧
    (∀ m, mod = some m → m.dir = dir →
      (extractPackageCore pkgName relBase dir mod files).importPath = m.path) ∧
    (∀ m, mod = some m → m.dir <+: dir → m.dir ≠ dir →
      (extractPackageCore pkgName relBase dir mod files).importPath =
        m.path ++ "/" ++ String.intercalate "/" (dir.drop m.dir.length)) := by
  refine ⟨?_, ?_, ?_⟩
  · intro h
    rw [extractPackageCore_importPath, h]
  · intro m hm hdir
    rw [extractPackageCore_importPath, hm]
    show importPathFor m.path m.dir dir = m.path
    rw [importPathFor.eq_def, ← hdir]
    have : goRel m.dir (m.dir ++ []) = [] := goRel_append m.dir []
    rw [List.append_nil] at this
    rw [this]
  · intro m hm hpre hne
    rw [extractPackageCore_importPath, hm]
    show importPathFor m.path m.dir dir = _
    rcases hpre with ⟨extra, hex⟩
    have hextra : extra ≠ [] := by
      intro h0
      apply hne
      rw [← hex, h0, List.append_nil]
    rw [importPathFor.eq_def, ← hex, goRel_append, List.drop_left]
    cases extra with
    | nil => exact absurd rfl hextra
    | cons e es => rfl

/-- Witness for C8: the spec's module-resolution scenario, a module
`example.com/m` at `/root` and a package at `/root/sub`. -/
theorem import_path_derivation_witness :
    (extractPackageCore "sub" ["root"] ["root", "sub"]
        (some ⟨"example.com/m", ["root"]⟩) []).importPath = "example.com/m/sub" := by
  have h := (import_path_derivation "sub" ["root"] ["root", "sub"]
    (some ⟨"example.com/m", ["root"]⟩) []).2.2 ⟨"example.com/m", ["root"]⟩ rfl
    ⟨["sub"], rfl⟩ (by decide)
  rw [h]
  decide

/-! ## C7: the module locator -/

theorem moduleForDir_ok_none_iff : ∀ (chain : List DirEnt),
    moduleForDir chain = .ok none ↔ ∀ e ∈ chain, e.gomod = none
  | [] => by simp [moduleForDir]
  | e :: rest => by
    rw [moduleForDir]
    cases hg : e.gomod with
    | some g =>
      cases hr : readModulePath g with
      | error u =>
        simp only [hr, Except.map]
        constructor
        · intro h; exact Except.noConfusion h
        · intro h
          exact absurd (h e (List.mem_cons_self _ _)) (by rw [hg]; simp)
      | ok p =>
        simp only [hr, Except.map]
        constructor
        · intro h
          cases h
        · intro h
          exact absurd (h e (List.mem_cons_self _ _)) (by rw [hg]; simp)
    | none =>
      rw [moduleForDir_ok_none_iff rest]
      constructor
      · intro h f hf
        rcases List.mem_cons.mp hf with rfl | hf2
        · exact hg
        · exact h f hf2
      · intro h f hf
        exact h f (List.mem_cons_of_mem _ hf)

/-- C7.  `moduleForDir` errors exactly when the upward walk, which stops
at the first directory holding a module-declaration file, meets one it
cannot read or that has no module-path line; if no directory on the
chain holds such a file the result is null without error. -/
theorem module_locator_errors (chain : List DirEnt) :
    (moduleForDir chain = .error () ↔
      ∃ pre e post, chain = pre ++ e :: post ∧ (∀ p ∈ pre, p.gomod = none) ∧
        ∃ g, e.gomod = some g ∧ readModulePath g = .error ()) ∧
    (moduleForDir chain = .ok none ↔ ∀ e ∈ chain, e.gomod = none) := by
  refine ⟨?_, moduleForDir_ok_none_iff chain⟩
  induction chain with
  | nil =>
    simp [moduleForDir]
  | cons e rest ih =>
    rw [moduleForDir]
    cases hg : e.gomod with
    | some g =>
      cases hr : readModulePath g with
      | error u =>
        simp only [hr, Except.map]
        constructor
        · intro _
          exact ⟨[], e, rest, rfl, by simp, g, hg, by rw [hr]⟩
        · intro _
          trivial
      | ok p =>
        simp only [hr, Except.map]
        constructor
        · intro h
          exact Except.noConfusion h
        · rintro ⟨pre, f, post, hchain, hpre, g2, hg2, hr2⟩
          cases pre with
          | nil =>
            simp only [List.nil_append] at hchain
            cases hchain
            rw [hg] at hg2
            cases hg2
            rw [hr] at hr2
            exact Except.noConfusion hr2
          | cons q qs =>
            simp only [List.cons_append] at hchain
            cases hchain
            exact absurd hg (by rw [hpre e (List.mem_cons_self _ _)]; simp)
    | none =>
      rw [ih]
      constructor
      · rintro ⟨pre, f, post, hchain, hpre, g2, hg2, hr2⟩
        refine ⟨e :: pre, f, post, by rw [hchain, List.cons_append], ?_, g2, hg2, hr2⟩
        intro p hp
        rcases List.mem_cons.mp hp with rfl | hp2
        · exact hg
        · exact hpre p hp2
      · rintro ⟨pre, f, post, hchain, hpre, g2, hg2, hr2⟩
        cases pre with
        | nil =>
          simp only [List.nil_append] at hchain
          cases hchain
          rw [hg] at hg2
          exact Option.noConfusion hg2
        | cons q qs =>
          simp only [List.cons_append] at hchain
          cases hchain
          exact ⟨qs, f, post, rfl, fun p hp => hpre p (List.mem_cons_of_mem _ hp), g2, hg2, hr2⟩

/-- Witness for C7 at a concrete chain: a go.mod-free directory below a
root with a well-formed go.mod yields that module and no error. -/
theorem module_locator_errors_witness :
    moduleForDir [⟨["root", "sub"], none⟩,
      ⟨["root"], some (.content ["module example.com/m"] false)⟩] = .ok none ↔
      ∀ e ∈ [(⟨["root", "sub"], none⟩ : DirEnt),
        ⟨["root"], some (.content ["module example.com/m"] false)⟩], e.gomod = none :=
  (module_locator_errors [⟨["root", "sub"], none⟩,
    ⟨["root"], some (.content ["module example.com/m"] false)⟩]).2

/-! ## C5: the generated-file filter -/

/-- Whether the sniffed content carries the generated-file marker: some
line among the first 20 available ones contains both phrases (an
unreadable file never carries the marker). -/
def sniffHasMarker : Sniff → Prop
  | .openErr => False
  | .content lines _ => ∃ l ∈ lines.take 20, isGeneratedLine l = true

theorem scanGenerated_ok_true_iff :
    ∀ (n : Nat) (lines : List String) (readErr : Bool),
      scanGenerated n lines readErr = .ok true ↔
        ∃ l ∈ lines.take n, isGeneratedLine l = true
  | 0, lines, readErr => by simp [scanGenerated]
  | n + 1, [], readErr => by cases readErr <;> simp [scanGenerated]
  | n + 1, line :: rest, readErr => by
    rw [scanGenerated]
    by_cases hgl : isGeneratedLine line = true
    · rw [if_pos hgl]
      simp only [List.take_succ_cons]
      constructor
      · intro _
        exact ⟨line, List.mem_cons_self _ _, hgl⟩
      · intro _
        trivial
    · rw [if_neg hgl]
      rw [scanGenerated_ok_true_iff n rest readErr]
      simp only [List.take_succ_cons, List.mem_cons]
      constructor
      · rintro ⟨l, hl, hp⟩
        exact ⟨l, Or.inr hl, hp⟩
      · rintro ⟨l, hl | hl, hp⟩
        · exact absurd (hl ▸ hp) hgl
        · exact ⟨l, hl, hp⟩

theorem isGeneratedFile_ok_true_iff (s : Sniff) :
    isGeneratedFile s = .ok true ↔ sniffHasMarker s := by
  cases s with
  | openErr =>
    rw [isGeneratedFile]
    simp [sniffHasMarker]
  | content lines readErr =>
    rw [isGeneratedFile]
    exact scanGenerated_ok_true_iff 20 lines readErr

/-- C5.  With generated-inclusion disabled, a candidate `.go` file that
passes the single-file and test filters is suppressed if and only if one
of the first 20 scanned lines contains both the `Code generated` and
`DO NOT EDIT` phrases; the scan stops at 20 lines or the first match,
and an I/O error while sniffing (open error, or read error before a
match) leaves the file included. -/
theorem generated_file_suppression (opts : Options) (onlyFile : Option String)
    (f : SrcFile) (hgen : opts.includeGenerated = false)
    (hsuf : strHasSuffix f.name ".go" = true)
    (honly : (match onlyFile with | some o => f.name != o | none => false) = false)
    (htest : (!opts.includeTests && strHasSuffix f.name "_test.go") = false) :
    fileFilter opts onlyFile f = false ↔ sniffHasMarker f.sniff := by
  rw [fileFilter.eq_def]
  simp only [hsuf, honly, htest, hgen, Bool.not_true, Bool.not_false, Bool.false_eq_true,
    if_false, if_true]
  cases hig : isGeneratedFile f.sniff with
  | ok b =>
    cases b with
    | false =>
      constructor
      · intro h
        exact absurd h (by simp)
      · intro hm
        have h2 := (isGeneratedFile_ok_true_iff f.sniff).mpr hm
        rw [hig] at h2
        simp at h2
    | true =>
      constructor
      · intro _
        exact (isGeneratedFile_ok_true_iff f.sniff).mp hig
      · intro _
        rfl
  | error e =>
    constructor
    · intro h
      exact absurd h (by simp)
    · intro hm
      have h2 := (isGeneratedFile_ok_true_iff f.sniff).mpr hm
      rw [hig] at h2
      exact Except.noConfusion h2

/-- A concrete generated file. -/
def wGenFile : SrcFile :=
  ⟨"zz_gen.go", .content ["// Code generated by tool. DO NOT EDIT.", "package p"] false,
   .ok ⟨"p", []⟩⟩

/-- Witness for C5: the marker suppresses a concrete generated file. -/
theorem generated_file_suppression_witness :
    fileFilter ⟨false, false, [], ""⟩ none wGenFile = false :=
  (generated_file_suppression ⟨false, false, [], ""⟩ none wGenFile rfl (by decide) rfl
    (by decide)).mpr ⟨"// Code generated by tool. DO NOT EDIT.", by decide, by decide⟩

/-! ## C2: canonical sorting of the whole model -/

theorem Generate_packages {rootParent : List String} {tree : DirTree}
    {ancestorMod : Option (List String × Sniff)} {onlyFile : Option String}
    {opts0 : Options} {model : Model}
    (h : Generate rootParent tree ancestorMod onlyFile opts0 = .ok model) :
    ∃ pkgs : List Package, model.packages = pkgs.insertionSort pkgLE := by
  rw [Generate.eq_def] at h
  cases hmod : resolveModule (updateNearest (rootParent ++ [tree.name]) tree.gomod ancestorMod) with
  | error u => rw [hmod] at h; exact Except.noConfusion h
  | ok rm =>
    rw [hmod] at h
    cases onlyFile with
    | some f =>
      simp only at h
      cases hpd : parseDir opts0.withDefaults (some f) (rootParent ++ [tree.name])
          (rootParent ++ [tree.name])
          (updateNearest (rootParent ++ [tree.name]) tree.gomod ancestorMod) tree.files with
      | error e => rw [hpd] at h; exact Except.noConfusion h
      | ok pkgs =>
        rw [hpd] at h
        cases h
        exact ⟨pkgs, rfl⟩
    | none =>
      simp only at h
      cases hwt : walkTree opts0.withDefaults opts0.withDefaults.excludeDirNames
          (rootParent ++ [tree.name]) rootParent
          (updateNearest (rootParent ++ [tree.name]) tree.gomod ancestorMod) tree with
      | error e => rw [hwt] at h; exact Except.noConfusion h
      | ok pkgs =>
        rw [hwt] at h
        cases h
        exact ⟨pkgs, rfl⟩

/-- C2.  Every successful run yields a model whose package list is
sorted ascending by (import path, directory, name) and whose per-package
lists (files, types, functions) and per-type lists (fields, embedded,
methods) are each sorted ascending by case-sensitive name (or relative
path for files). -/
theorem model_canonically_sorted (rootParent : List String) (tree : DirTree)
    (ancestorMod : Option (List String × Sniff)) (onlyFile : Option String)
    (opts0 : Options) (model : Model)
    (h : Generate rootParent tree ancestorMod onlyFile opts0 = .ok model) :
    model.packages.Sorted pkgLE ∧
    ∀ pkg ∈ model.packages,
      pkg.files.Sorted (fun a b : String => a ≤ b) ∧
      pkg.functions.Sorted fnLE ∧
      pkg.types.Sorted tyLE ∧
      ∀ t ∈ pkg.types,
        t.fields.Sorted fieldLE ∧ t.embedded.Sorted (fun a b : String => a ≤ b) ∧
          t.methods.Sorted fnLE := by
  constructor
  · rcases Generate_packages h with ⟨pkgs, hp⟩
    rw [hp]
    exact List.sorted_insertionSort pkgLE pkgs
  · intro pkg hm
    rcases Generate_mem h pkg hm with ⟨n, dir, mod, fs, rfl, _⟩
    exact sortPackage_sorted (extractPackageCore n _ dir mod fs)

/-- The model of the sample run. -/
def wModel : Model :=
  ((Generate ["home"] wTree none none wOpts).toOption).getD ⟨"", none, []⟩

/-- Witness for C2 on the sample run. -/
theorem model_canonically_sorted_witness : wModel.packages.Sorted pkgLE :=
  (model_canonically_sorted ["home"] wTree none none wOpts wModel (by decide)).1

/-! ## C6: the no-source-files signal -/

/-- C6 counterexample.  In single-file mode a directory that yields zero
matching files after filtering surfaces the no-source-files signal as an
error to the caller: a concrete run on a root file whose directory has
no matching files fails with `noGoFiles` instead of skipping. -/
theorem noGoFiles_surfaces_in_file_mode :
    Generate ["home"] (.node "proj" none [] []) none (some "main.go") wOpts =
      .error .noGoFiles := by decide

/-- C6 as amended.  A directory with zero matching files after filtering
yields the `noGoFiles` signal; in tree-walk mode the walk absorbs that
signal, the directory contributes no package and no error, and only the
subdirectories' packages remain; in single-file mode the signal
surfaces to the caller as the run's error. -/
theorem noGoFiles_skips_directory :
    (∀ (opts : Options) (relBase dir : List String)
      (nm : Option (List String × Sniff)) (files : List SrcFile),
      files.filter (fileFilter opts none) = [] →
      parseDir opts none relBase dir nm files = .error .noGoFiles) ∧
    (∀ (opts : Options) (excluded : List String) (relBase parent : List String)
      (nm0 : Option (List String × Sniff)) (name : String) (gomod : Option Sniff)
      (files : List SrcFile) (subdirs : List DirTree),
      name ∉ excluded →
      parseDir opts none relBase (parent ++ [name])
        (updateNearest (parent ++ [name]) gomod nm0) files = .error .noGoFiles →
      walkTree opts excluded relBase parent nm0 (.node name gomod files subdirs) =
        walkSubdirs opts excluded relBase (parent ++ [name])
          (updateNearest (parent ++ [name]) gomod nm0) subdirs) ∧
    (∀ (rootParent : List String) (tree : DirTree)
      (ancestorMod : Option (List String × Sniff)) (f : String) (opts0 : Options) m,
      resolveModule (updateNearest (rootParent ++ [tree.name]) tree.gomod ancestorMod) =
        .ok m →
      parseDir opts0.withDefaults (some f) (rootParent ++ [tree.name])
        (rootParent ++ [tree.name])
        (updateNearest (rootParent ++ [tree.name]) tree.gomod ancestorMod) tree.files =
        .error .noGoFiles →
      Generate rootParent tree ancestorMod (some f) opts0 = .error .noGoFiles) := by
  refine ⟨?_, ?_, ?_⟩
  · intro opts relBase dir nm files hkept
    rw [parseDir, hkept]
    rfl
  · intro opts excluded relBase parent nm0 name gomod files subdirs hx hpd
    rw [walkTree, if_neg (by simpa using hx), hpd]
  · intro rootParent tree ancestorMod f opts0 m hmod hpd
    rw [Generate.eq_def, hmod]
    simp only
    rw [hpd]

/-- Witness for the amended C6 at a concrete single-file run. -/
theorem noGoFiles_skips_directory_witness :
    Generate ["home"] (.node "proj" none [] []) none (some "x.go") wOpts =
      .error .noGoFiles :=
  noGoFiles_skips_directory.2.2 ["home"] (.node "proj" none [] []) none "x.go" wOpts
    none (by decide) (by decide)

/-! ## C10: unnamed struct members and Field invariants -/

/-- A parser invariant: identifiers are never the empty string. -/
def wfGoField (g : GoField) : Prop := ∀ n ∈ g.names, n ≠ ""

def wfSpec (ts : TypeSpec) : Prop :=
  match ts.underlying with
  | .structU gs => ∀ g ∈ gs, wfGoField g
  | _ => True

def wfDecl (d : GoDecl) : Prop :=
  match d with
  | .genType _ specs => ∀ ts ∈ specs, wfSpec ts
  | _ => True

def wfAst (a : GoFileAst) : Prop := ∀ d ∈ a.decls, wfDecl d

def wfSrcFile (f : SrcFile) : Prop :=
  match f.parsed with
  | .ok a => wfAst a
  | .error _ => True

/-- All syntax trees of the analyzed tree have nonempty identifiers. -/
def wfTree (t : DirTree) : Prop := ∀ f ∈ treeFiles t, wfSrcFile f

theorem parseStructFields_fst_mem {gs : List GoField} {fl : Field}
    (h : fl ∈ (parseStructFields gs).1) :
    ∃ g ∈ gs, fl.name ∈ g.names ∧ fl.embedded = false ∧ fl.type = exprString g.type := by
  rw [parseStructFields] at h
  rcases List.mem_flatMap.mp h with ⟨g, hg, hin⟩
  by_cases hn : g.names = []
  · rw [if_pos hn] at hin
    cases hin
  · rw [if_neg hn] at hin
    rcases List.mem_map.mp hin with ⟨n, hnm, rfl⟩
    exact ⟨g, hg, hnm, rfl, rfl⟩

theorem typeOfSpec_fields (gdoc : Option String) (single : Bool) (ts : TypeSpec) :
    (typeOfSpec gdoc single ts).fields =
      (match ts.underlying with
       | .structU gs => (parseStructFields gs).1
       | _ => []) := by
  cases hu : ts.underlying <;> simp [typeOfSpec, hu]

/-- Every field of a type in the extracted (pre-sort) package originates
from a named entry of a struct field list of some type spec of the
package's declaration stream. -/
theorem core_field_origin {pkgName : String} {relBase dir : List String}
    {mod : Option Module} {files : List (String × GoFileAst)} {t : GoType} {fl : Field}
    (ht : t ∈ (extractPackageCore pkgName relBase dir mod files).types)
    (hf : fl ∈ t.fields) :
    ∃ d ∈ declsOf files, ∃ gdoc specs, d = .genType gdoc specs ∧
      ∃ ts ∈ specs, ∃ gs, ts.underlying = .structU gs ∧
        ∃ g ∈ gs, fl.name ∈ g.names ∧ fl.embedded = false ∧ fl.type = exprString g.type := by
  rw [extractPackageCore_types] at ht
  rcases List.mem_iff_getElem?.mp ht with ⟨j, hj⟩
  rw [pass2, pass2_fold_types] at hj
  cases hT : ((pass1 (declsOf files)).1)[j]? with
  | none => rw [hT] at hj; exact Option.noConfusion hj
  | some t0 =>
    rw [hT] at hj
    cases hj
    have hf2 : fl ∈ t0.fields := hf
    have ht0 : t0 ∈ (pass1 (declsOf files)).1 := List.getElem?_mem hT
    rw [pass1_types] at ht0
    rcases List.mem_flatMap.mp ht0 with ⟨d, hd, htd⟩
    cases d with
    | funcD fd => exact absurd htd (by simp [declTypes])
    | otherD => exact absurd htd (by simp [declTypes])
    | genType gdoc specs =>
      rw [declTypes] at htd
      rcases List.mem_map.mp htd with ⟨ts, hts, rfl⟩
      rw [typeOfSpec_fields] at hf2
      cases hu : ts.underlying with
      | structU gs =>
        rw [hu] at hf2
        rcases parseStructFields_fst_mem hf2 with ⟨g, hg, hnm, hemb, hty⟩
        exact ⟨.genType gdoc specs, hd, gdoc, specs, rfl, ts, hts, gs, hu, g, hg, hnm, hemb, hty⟩
      | interfaceU ms => rw [hu] at hf2; cases hf2
      | otherU e => rw [hu] at hf2; cases hf2

theorem sortPackage_types_mem {q : Package} {t : GoType}
    (ht : t ∈ (sortPackage q).types) :
    ∃ t1 ∈ q.types, ∀ fl, fl ∈ t.fields → fl ∈ t1.fields := by
  rw [sortPackage] at ht
  rcases List.mem_map.mp ht with ⟨t1, ht1, rfl⟩
  refine ⟨t1, (List.perm_insertionSort tyLE q.types).subset ht1, ?_⟩
  intro fl hfl
  exact (List.perm_insertionSort fieldLE t1.fields).subset hfl

/-- Field origin lifted to a whole successful run. -/
theorem model_field_origin {rootParent : List String} {tree : DirTree}
    {ancestorMod : Option (List String × Sniff)} {onlyFile : Option String}
    {opts0 : Options} {model : Model}
    (h : Generate rootParent tree ancestorMod onlyFile opts0 = .ok model) :
    ∀ pkg ∈ model.packages, ∀ t ∈ pkg.types, ∀ fl ∈ t.fields,
      ∃ sf ∈ treeFiles tree, ∃ a : GoFileAst, sf.parsed = .ok a ∧
        ∃ d ∈ a.decls, ∃ gdoc specs, d = .genType gdoc specs ∧
          ∃ ts ∈ specs, ∃ gs, ts.underlying = .structU gs ∧
            ∃ g ∈ gs, fl.name ∈ g.names ∧ fl.embedded = false ∧
              fl.type = exprString g.type := by
  intro pkg hm t ht fl hfl
  rcases Generate_mem h pkg hm with ⟨n, dir, mod, fs, rfl, hprov⟩
  rcases sortPackage_types_mem ht with ⟨t1, ht1, hsub⟩
  rcases core_field_origin ht1 (hsub fl hfl) with
    ⟨d, hd, gdoc, specs, rfl, ts, hts, gs, hu, g, hg, hnm, hemb, hty⟩
  rw [declsOf] at hd
  rcases List.mem_flatMap.mp hd with ⟨a, ha, hda⟩
  rcases List.mem_map.mp ha with ⟨p, hp, rfl⟩
  rcases hprov p hp with ⟨sf, hsf, hok⟩
  exact ⟨sf, hsf, p.2, hok, _, hda, gdoc, specs, rfl, ts, hts, gs, hu, g, hg, hnm, hemb, hty⟩

/-- C10.  A struct member declared without a name is recorded only in the
type's embedded list (by its type expression text), never as a `Field`;
consequently every `Field` of a produced model has `Embedded = false`,
and (under the parser invariant that identifiers are nonempty) a
nonempty name. -/
theorem unnamed_members_only_embedded (rootParent : List String) (tree : DirTree)
    (ancestorMod : Option (List String × Sniff)) (onlyFile : Option String)
    (opts0 : Options) (model : Model)
    (h : Generate rootParent tree ancestorMod onlyFile opts0 = .ok model) :
    (∀ (gs : List GoField) (g : GoField), g ∈ gs → g.names = [] →
      exprString g.type ∈ (parseStructFields gs).2) ∧
    (∀ (gs : List GoField) (fl : Field), fl ∈ (parseStructFields gs).1 →
      ∃ g ∈ gs, fl.name ∈ g.names) ∧
    (∀ pkg ∈ model.packages, ∀ t ∈ pkg.types, ∀ fl ∈ t.fields, fl.embedded = false) ∧
    (wfTree tree →
      ∀ pkg ∈ model.packages, ∀ t ∈ pkg.types, ∀ fl ∈ t.fields, fl.name ≠ "") := by
  refine ⟨?_, ?_, ?_, ?_⟩
  · intro gs g hg hn
    rw [parseStructFields]
    exact List.mem_map_of_mem _ (List.mem_filter.mpr ⟨hg, by simp [hn]⟩)
  · intro gs fl hfl
    rcases parseStructFields_fst_mem hfl with ⟨g, hg, hnm, _, _⟩
    exact ⟨g, hg, hnm⟩
  · intro pkg hm t ht fl hfl
    rcases model_field_origin h pkg hm t ht fl hfl with
      ⟨_, _, _, _, _, _, _, _, _, _, _, _, _, _, _, _, hemb, _⟩
    exact hemb
  · intro hwf pkg hm t ht fl hfl
    rcases model_field_origin h pkg hm t ht fl hfl with
      ⟨sf, hsf, a, hok, d, hda, gdoc, specs, hd, ts, hts, gs, hu, g, hg, hnm, _, _⟩
    have h1 : wfSrcFile sf := hwf sf hsf
    rw [wfSrcFile, hok] at h1
    have h2 : wfDecl d := h1 d hda
    rw [hd, wfDecl] at h2
    have h3 : wfSpec ts := h2 ts hts
    rw [wfSpec, hu] at h3
    exact h3 g hg fl.name hnm

/-- Witness for C10 on the sample run: the concrete `Value` field of the
sample model's `Box` type has `Embedded = false`. -/
theorem unnamed_members_only_embedded_witness :
    ((((wModel.packages.getD 0 ⟨"", "", "", [], [], []⟩).types.getD 0
        ⟨"", .other, false, "", [], [], [], []⟩).fields.getD 0
        ⟨"", "", "", true, false⟩)).embedded = false :=
  (unnamed_members_only_embedded ["home"] wTree none none wOpts wModel (by decide)).2.2.1
    (wModel.packages.getD 0 ⟨"", "", "", [], [], []⟩) (by decide)
    ((wModel.packages.getD 0 ⟨"", "", "", [], [], []⟩).types.getD 0
      ⟨"", .other, false, "", [], [], [], []⟩) (by decide)
    (((wModel.packages.getD 0 ⟨"", "", "", [], [], []⟩).types.getD 0
      ⟨"", .other, false, "", [], [], [], []⟩).fields.getD 0
      ⟨"", "", "", true, false⟩) (by decide)

/-! ## C9: determinism under file reordering -/

/-- Free-function routing expressed through the set of declared type
names: pass 2 puts a declaration in the free list exactly when it is a
receiver-less function, has an unresolvable receiver expression, or its
receiver base name matches no declared type. -/
def nameFree (names : List String) (d : GoDecl) : Option Function :=
  match d with
  | .funcD fd =>
    match fd.recv with
    | [] => some (fnModelOf fd)
    | r :: _ =>
      if receiverBaseName r.type = "" then some (recvFn fd r)
      else if receiverBaseName r.type ∈ names then none
      else some (recvFn fd r)
  | _ => none

/-- Method routing to the type named `n`, expressed through names. -/
def nameMethod (names : List String) (n : String) (d : GoDecl) : Option Function :=
  match d with
  | .funcD fd =>
    match fd.recv with
    | [] => none
    | r :: _ =>
      if receiverBaseName r.type = "" then none
      else if receiverBaseName r.type = n ∧ n ∈ names then some (recvFn fd r)
      else none
  | _ => none

theorem lookup_none_iff_names (decls : List GoDecl) (base : String) :
    List.lookup base (pass1 decls).2 = none ↔
      base ∉ ((pass1 decls).1.map GoType.name) := by
  rw [lookup_eq_none_iff]
  constructor
  · intro h hmem
    have h2 : base ∈ (pass1 decls).2.map Prod.fst := (pass1_keys decls).mem_iff.mpr hmem
    rcases List.mem_map.mp h2 with ⟨p, hp, he⟩
    exact h p hp he
  · intro h p hp he
    apply h
    exact (pass1_keys decls).mem_iff.mp (List.mem_map.mpr ⟨p, hp, he⟩)

theorem freeRouted_eq_nameFree (decls : List GoDecl) (d : GoDecl) :
    freeRouted (pass1 decls).2 d = nameFree ((pass1 decls).1.map GoType.name) d := by
  cases d with
  | genType gdoc specs => rfl
  | otherD => rfl
  | funcD fd =>
    cases hr : fd.recv with
    | nil => simp [freeRouted, nameFree, hr]
    | cons r rest =>
      by_cases hb : receiverBaseName r.type = ""
      · simp [freeRouted, nameFree, hr, hb]
      · cases hl : List.lookup (receiverBaseName r.type) (pass1 decls).2 with
        | some i =>
          have hmem : receiverBaseName r.type ∈ (pass1 decls).1.map GoType.name := by
            by_contra hnm
            rw [← lookup_none_iff_names decls (receiverBaseName r.type)] at hnm
            rw [hl] at hnm
            exact Option.noConfusion hnm
          simp [freeRouted, nameFree, hr, hb, hl, hmem]
        | none =>
          have hnm := (lookup_none_iff_names decls _).mp hl
          simp [freeRouted, nameFree, hr, hb, hl, hnm]

theorem nameFree_congr {names1 names2 : List String}
    (hp : List.Perm names1 names2) (d : GoDecl) :
    nameFree names1 d = nameFree names2 d := by
  cases d with
  | genType gdoc specs => rfl
  | otherD => rfl
  | funcD fd =>
    cases hr : fd.recv with
    | nil => simp [nameFree, hr]
    | cons r rest =>
      by_cases hb : receiverBaseName r.type = ""
      · simp [nameFree, hr, hb]
      · by_cases hm : receiverBaseName r.type ∈ names1
        · simp [nameFree, hr, hb, hm, hp.mem_iff.mp hm]
        · have hm2 : receiverBaseName r.type ∉ names2 := fun h => hm (hp.mem_iff.mpr h)
          simp [nameFree, hr, hb, hm, hm2]

theorem nameMethod_congr {names1 names2 : List String}
    (hp : List.Perm names1 names2) (n : String) (d : GoDecl) :
    nameMethod names1 n d = nameMethod names2 n d := by
  cases d with
  | genType gdoc specs => rfl
  | otherD => rfl
  | funcD fd =>
    cases hr : fd.recv with
    | nil => simp [nameMethod, hr]
    | cons r rest =>
      by_cases hb : receiverBaseName r.type = ""
      · simp [nameMethod, hr, hb]
      · by_cases hm : n ∈ names1
        · simp [nameMethod, hr, hb, hm, hp.mem_iff.mp hm]
        · have hm2 : n ∉ names2 := fun h => hm (hp.mem_iff.mpr h)
          simp [nameMethod, hr, hb, hm, hm2]

theorem pass1_name_inj {decls : List GoDecl}
    (hN : ((pass1 decls).1.map GoType.name).Nodup) {i j : Nat} {t u : GoType}
    (hi : (pass1 decls).1[i]? = some t) (hj : (pass1 decls).1[j]? = some u)
    (hname : t.name = u.name) : i = j := by
  have h1 : ((pass1 decls).1.map GoType.name)[i]? = some t.name := by
    rw [List.getElem?_map, hi]
    rfl
  have h2 : ((pass1 decls).1.map GoType.name)[j]? = some u.name := by
    rw [List.getElem?_map, hj]
    rfl
  have hlt : i < ((pass1 decls).1.map GoType.name).length :=
    (List.getElem?_eq_some.mp h1).1
  exact List.getElem?_inj hlt hN (by rw [h1, h2, hname])

theorem idxRouted_eq_nameMethod {decls : List GoDecl}
    (hN : ((pass1 decls).1.map GoType.name).Nodup) {j : Nat} {t : GoType}
    (hj : (pass1 decls).1[j]? = some t) (d : GoDecl) :
    idxRouted (pass1 decls).2 j d =
      nameMethod ((pass1 decls).1.map GoType.name) t.name d := by
  cases d with
  | genType gdoc specs => rfl
  | otherD => rfl
  | funcD fd =>
    cases hr : fd.recv with
    | nil => simp [idxRouted, nameMethod, hr]
    | cons r rest =>
      by_cases hb : receiverBaseName r.type = ""
      · simp [idxRouted, nameMethod, hr, hb]
      · cases hl : List.lookup (receiverBaseName r.type) (pass1 decls).2 with
        | none =>
          have hnm := (lookup_none_iff_names decls _).mp hl
          have hcond : ¬(receiverBaseName r.type = t.name ∧
              t.name ∈ (pass1 decls).1.map GoType.name) := by
            rintro ⟨h1, h2⟩
            exact hnm (h1 ▸ h2)
          have hL : idxRouted (pass1 decls).2 j (.funcD fd) = none := by
            simp [idxRouted, hr, hb, hl]
          have hR : nameMethod ((pass1 decls).1.map GoType.name) t.name (.funcD fd) = none := by
            simp only [nameMethod, hr]
            rw [if_neg hb, if_neg hcond]
          rw [hL, hR]
        | some i =>
          rcases pass1_tblInv decls _ (lookup_mem hl) with ⟨u, hu, hun⟩
          have hu2 : (pass1 decls).1[i]? = some u := hu
          have hun2 : u.name = receiverBaseName r.type := hun
          by_cases hbn : receiverBaseName r.type = t.name
          · have hij : i = j := pass1_name_inj hN hu2 hj (by rw [hun2, hbn])
            have hmem : t.name ∈ (pass1 decls).1.map GoType.name :=
              List.mem_map.mpr ⟨t, List.getElem?_mem hj, rfl⟩
            have hbt : ¬(t.name = "") := hbn ▸ hb
            have hL : idxRouted (pass1 decls).2 j (.funcD fd) = some (recvFn fd r) := by
              simp [idxRouted, hr, hb, hl, hij]
            have hR : nameMethod ((pass1 decls).1.map GoType.name) t.name (.funcD fd) =
                some (recvFn fd r) := by
              simp [nameMethod, hr, hbn, hbt, hmem]
            rw [hL, hR]
          · have hij : i ≠ j := by
              intro he
              subst he
              rw [hu2] at hj
              cases hj
              exact hbn hun2.symm
            have hcond : ¬(receiverBaseName r.type = t.name ∧
                t.name ∈ (pass1 decls).1.map GoType.name) := by
              rintro ⟨h1, _⟩
              exact hbn h1
            have hL : idxRouted (pass1 decls).2 j (.funcD fd) = none := by
              simp [idxRouted, hr, hb, hl, hij]
            have hR : nameMethod ((pass1 decls).1.map GoType.name) t.name (.funcD fd) = none := by
              simp only [nameMethod, hr]
              rw [if_neg hb, if_neg hcond]
            rw [hL, hR]

theorem pass2_types_names (tbl : List (String × Nat)) (T : List GoType)
    (decls : List GoDecl) :
    ((pass2 tbl T decls).1).map GoType.name = T.map GoType.name := by
  apply List.ext_getElem?
  intro j
  rw [List.getElem?_map, List.getElem?_map, pass2, pass2_fold_types]
  cases hj : T[j]? with
  | none => rfl
  | some t => rfl

/-- The by-name method extension a pass-2 run applies to each pass-1
type record (given duplicate-free type names). -/
def extendT (decls : List GoDecl) (names : List String) (t : GoType) : GoType :=
  { t with methods := t.methods ++ decls.filterMap (nameMethod names t.name) }

theorem pass2_types_map {decls : List GoDecl}
    (hN : ((pass1 decls).1.map GoType.name).Nodup) :
    (pass2 (pass1 decls).2 (pass1 decls).1 decls).1 =
      (pass1 decls).1.map (extendT decls ((pass1 decls).1.map GoType.name)) := by
  apply List.ext_getElem?
  intro j
  rw [pass2, pass2_fold_types, List.getElem?_map]
  cases hj : (pass1 decls).1[j]? with
  | none => rfl
  | some t =>
    have hcongr : decls.filterMap (idxRouted (pass1 decls).2 j) =
        decls.filterMap (nameMethod ((pass1 decls).1.map GoType.name) t.name) :=
      List.filterMap_congr fun d _ => idxRouted_eq_nameMethod hN hj d
    simp only [Option.map_some']
    rw [extendT, hcongr]

theorem core_functions_char (pkgName : String) (relBase dir : List String)
    (mod : Option Module) (files : List (String × GoFileAst)) :
    (extractPackageCore pkgName relBase dir mod files).functions =
      (declsOf files).filterMap
        (nameFree (((pass1 (declsOf files)).1).map GoType.name)) := by
  rw [extractPackageCore_functions, pass2, pass2_fold_functions, List.nil_append]
  exact List.filterMap_congr fun d _ => freeRouted_eq_nameFree (declsOf files) d

theorem package_ext {a b : Package} (h1 : a.name = b.name)
    (h2 : a.importPath = b.importPath) (h3 : a.dir = b.dir) (h4 : a.files = b.files)
    (h5 : a.types = b.types) (h6 : a.functions = b.functions) : a = b := by
  cases a
  cases b
  simp only at h1 h2 h3 h4 h5 h6
  rw [Package.mk.injEq]
  exact ⟨h1, h2, h3, h4, h5, h6⟩

theorem gotype_ext {a b : GoType} (h1 : a.name = b.name) (h2 : a.kind = b.kind)
    (h3 : a.exported = b.exported) (h4 : a.doc = b.doc)
    (h5 : a.typeParams = b.typeParams) (h6 : a.fields = b.fields)
    (h7 : a.embedded = b.embedded) (h8 : a.methods = b.methods) : a = b := by
  cases a
  cases b
  simp only at h1 h2 h3 h4 h5 h6 h7 h8
  rw [GoType.mk.injEq]
  exact ⟨h1, h2, h3, h4, h5, h6, h7, h8⟩

instance : IsAntisymm String (fun a b : String => a ≤ b) :=
  ⟨fun _ _ h1 h2 => le_antisymm h1 h2⟩

instance : IsTrans String (fun a b : String => a ≤ b) :=
  ⟨fun _ _ _ h1 h2 => le_trans h1 h2⟩

instance : IsTotal String (fun a b : String => a ≤ b) :=
  ⟨fun a b => le_total a b⟩

/-- Two files whose only declarations are methods named `F` on distinct
receiver types that resolve to no declared type (fallback routing). -/
def cAstA : GoFileAst := ⟨"p", [.funcD ⟨"F", none, [gfield ["m"] (.ident "M1")], [], [], []⟩]⟩

def cAstB : GoFileAst := ⟨"p", [.funcD ⟨"F", none, [gfield ["m"] (.ident "M2")], [], [], []⟩]⟩

def cFiles1 : List (String × GoFileAst) := [("a.go", cAstA), ("b.go", cAstB)]

def cFiles2 : List (String × GoFileAst) := [("b.go", cAstB), ("a.go", cAstA)]

/-- C9 counterexample.  Permuting the file order is observable through
the canonical sort: two fallback-routed functions share the name `F`, so
the name sort leaves them in input order and the two runs produce
different Packages. -/
theorem permutation_changes_package :
    List.Perm cFiles1 cFiles2 ∧
    sortPackage (extractPackageCore "p" ["r"] ["r"] none cFiles1) ≠
      sortPackage (extractPackageCore "p" ["r"] ["r"] none cFiles2) :=
  ⟨List.Perm.swap _ _ _, by decide⟩

/-- C9 as amended.  Permuting the order in which one directory's one
package's files are fed to the extractor yields the same Package after
canonical sorting, provided the sort keys are duplicate-free: distinct
type names, distinct names in the free-function list, and distinct
method names within each type (the invariants valid Go source gives). -/
theorem permutation_determinism (pkgName : String) (relBase dir : List String)
    (mod : Option Module) (files1 files2 : List (String × GoFileAst))
    (hperm : List.Perm files1 files2)
    (hT : (((extractPackageCore pkgName relBase dir mod files1).types).map GoType.name).Nodup)
    (hF : (((extractPackageCore pkgName relBase dir mod files1).functions).map
      Function.name).Nodup)
    (hM : ∀ t ∈ (extractPackageCore pkgName relBase dir mod files1).types,
      (t.methods.map Function.name).Nodup) :
    sortPackage (extractPackageCore pkgName relBase dir mod files1) =
      sortPackage (extractPackageCore pkgName relBase dir mod files2) := by
  have hdecl : List.Perm (declsOf files1) (declsOf files2) := by
    rw [declsOf, declsOf]
    exact List.Perm.flatMap_right _ (hperm.map _)
  have hT12 : List.Perm (pass1 (declsOf files1)).1 (pass1 (declsOf files2)).1 := by
    rw [pass1_types, pass1_types]
    exact List.Perm.flatMap_right _ hdecl
  have hnames : List.Perm ((pass1 (declsOf files1)).1.map GoType.name)
      ((pass1 (declsOf files2)).1.map GoType.name) := hT12.map _
  have hN1 : ((pass1 (declsOf files1)).1.map GoType.name).Nodup := by
    have h0 := hT
    rw [extractPackageCore_types, pass2_types_names] at h0
    exact h0
  have hN2 : ((pass1 (declsOf files2)).1.map GoType.name).Nodup := hnames.nodup_iff.mp hN1
  have hP1t := extractPackageCore_types pkgName relBase dir mod files1
  rw [pass2_types_map hN1] at hP1t
  have hP2t := extractPackageCore_types pkgName relBase dir mod files2
  rw [pass2_types_map hN2] at hP2t
  have hP1f := core_functions_char pkgName relBase dir mod files1
  have hP2f := core_functions_char pkgName relBase dir mod files2
  have hroute : ∀ n : String, List.Perm
      ((declsOf files1).filterMap (nameMethod ((pass1 (declsOf files1)).1.map GoType.name) n))
      ((declsOf files2).filterMap
        (nameMethod ((pass1 (declsOf files2)).1.map GoType.name) n)) := by
    intro n
    have hcg : (declsOf files2).filterMap
        (nameMethod ((pass1 (declsOf files2)).1.map GoType.name) n) =
        (declsOf files2).filterMap
          (nameMethod ((pass1 (declsOf files1)).1.map GoType.name) n) :=
      List.filterMap_congr fun d _ => (nameMethod_congr hnames n d).symm
    rw [hcg]
    exact hdecl.filterMap _
  have hsortm : ∀ t ∈ (pass1 (declsOf files2)).1,
      ((extendT (declsOf files2) ((pass1 (declsOf files2)).1.map GoType.name)
        t).methods).insertionSort fnLE =
      ((extendT (declsOf files1) ((pass1 (declsOf files1)).1.map GoType.name)
        t).methods).insertionSort fnLE := by
    intro t ht
    have htT1 : t ∈ (pass1 (declsOf files1)).1 := hT12.mem_iff.mpr ht
    have hNm : (((extendT (declsOf files1) ((pass1 (declsOf files1)).1.map GoType.name)
        t).methods).map Function.name).Nodup := by
      have hmem : extendT (declsOf files1) ((pass1 (declsOf files1)).1.map GoType.name) t ∈
          (extractPackageCore pkgName relBase dir mod files1).types := by
        rw [hP1t]
        exact List.mem_map_of_mem _ htT1
      exact hM _ hmem
    have hpm : List.Perm
        (((extendT (declsOf files2) ((pass1 (declsOf files2)).1.map GoType.name)
          t).methods).insertionSort fnLE)
        ((extendT (declsOf files1) ((pass1 (declsOf files1)).1.map GoType.name) t).methods) :=
      (List.perm_insertionSort fnLE _).trans
        (List.Perm.append_left t.methods (hroute t.name).symm)
    apply keyed_sorted_perm_eq Function.name
    · exact hpm.trans (List.perm_insertionSort fnLE _).symm
    · exact List.sorted_insertionSort fnLE _
    · exact List.sorted_insertionSort fnLE _
    · exact (hpm.map Function.name).nodup_iff.mpr hNm
  have hinner : ∀ t ∈ (pass1 (declsOf files2)).1,
      innerSortType (extendT (declsOf files2)
        ((pass1 (declsOf files2)).1.map GoType.name) t) =
      innerSortType (extendT (declsOf files1)
        ((pass1 (declsOf files1)).1.map GoType.name) t) := by
    intro t ht
    exact gotype_ext rfl rfl rfl rfl rfl rfl rfl (hsortm t ht)
  have htypes : (sortPackage (extractPackageCore pkgName relBase dir mod files1)).types =
      (sortPackage (extractPackageCore pkgName relBase dir mod files2)).types := by
    apply keyed_sorted_perm_eq GoType.name
    · show List.Perm
        (((extractPackageCore pkgName relBase dir mod files1).types.insertionSort
          tyLE).map innerSortType)
        (((extractPackageCore pkgName relBase dir mod files2).types.insertionSort
          tyLE).map innerSortType)
      refine ((List.perm_insertionSort tyLE _).map _).trans ?_ |>.trans
        ((List.perm_insertionSort tyLE _).map _).symm
      rw [hP1t, hP2t, List.map_map, List.map_map]
      have hmc : (pass1 (declsOf files2)).1.map (innerSortType ∘ extendT (declsOf files2)
            ((pass1 (declsOf files2)).1.map GoType.name)) =
          (pass1 (declsOf files2)).1.map (innerSortType ∘ extendT (declsOf files1)
            ((pass1 (declsOf files1)).1.map GoType.name)) :=
        List.map_congr_left fun t ht => hinner t ht
      rw [hmc]
      exact hT12.map _
    · exact (sortPackage_sorted (extractPackageCore pkgName relBase dir mod files1)).2.2.1
    · exact (sortPackage_sorted (extractPackageCore pkgName relBase dir mod files2)).2.2.1
    · have e1 : (sortPackage (extractPackageCore pkgName relBase dir mod files1)).types.map
          GoType.name =
          ((extractPackageCore pkgName relBase dir mod files1).types.insertionSort
            tyLE).map GoType.name := by
        show (((extractPackageCore pkgName relBase dir mod files1).types.insertionSort
          tyLE).map innerSortType).map GoType.name = _
        rw [List.map_map]
        exact List.map_congr_left fun t _ => rfl
      rw [e1]
      exact ((List.perm_insertionSort tyLE _).map GoType.name).nodup_iff.mpr hT
  have hfns : (sortPackage (extractPackageCore pkgName relBase dir mod files1)).functions =
      (sortPackage (extractPackageCore pkgName relBase dir mod files2)).functions := by
    apply keyed_sorted_perm_eq Function.name
    · show List.Perm
        ((extractPackageCore pkgName relBase dir mod files1).functions.insertionSort fnLE)
        ((extractPackageCore pkgName relBase dir mod files2).functions.insertionSort fnLE)
      refine (List.perm_insertionSort fnLE _).trans ?_ |>.trans
        (List.perm_insertionSort fnLE _).symm
      rw [hP1f, hP2f]
      have hcg : (declsOf files2).filterMap
          (nameFree ((pass1 (declsOf files2)).1.map GoType.name)) =
          (declsOf files2).filterMap
            (nameFree ((pass1 (declsOf files1)).1.map GoType.name)) :=
        List.filterMap_congr fun d _ => (nameFree_congr hnames d).symm
      rw [hcg]
      exact hdecl.filterMap _
    · exact (sortPackage_sorted (extractPackageCore pkgName relBase dir mod files1)).2.1
    · exact (sortPackage_sorted (extractPackageCore pkgName relBase dir mod files2)).2.1
    · exact ((List.perm_insertionSort fnLE _).map Function.name).nodup_iff.mpr hF
  have hfiles : (sortPackage (extractPackageCore pkgName relBase dir mod files1)).files =
      (sortPackage (extractPackageCore pkgName relBase dir mod files2)).files := by
    apply List.eq_of_perm_of_sorted (r := fun a b : String => a ≤ b)
    · show List.Perm
        ((extractPackageCore pkgName relBase dir mod files1).files.insertionSort
          (fun a b : String => a ≤ b))
        ((extractPackageCore pkgName relBase dir mod files2).files.insertionSort
          (fun a b : String => a ≤ b))
      refine (List.perm_insertionSort _ _).trans ?_ |>.trans (List.perm_insertionSort _ _).symm
      show List.Perm (packageFiles relBase dir (files1.map fun f => f.1))
        (packageFiles relBase dir (files2.map fun f => f.1))
      rw [packageFiles, packageFiles]
      refine (List.perm_insertionSort _ _).trans ?_ |>.trans (List.perm_insertionSort _ _).symm
      exact (hperm.map _).map _
    · exact (sortPackage_sorted (extractPackageCore pkgName relBase dir mod files1)).1
    · exact (sortPackage_sorted (extractPackageCore pkgName relBase dir mod files2)).1
  exact package_ext rfl rfl rfl hfiles htypes hfns

/-- A second sample file with a free function, for the C9 witness. -/
def wFreeAst : GoFileAst := ⟨"sample", [.funcD ⟨"Free", none, [], [], [], []⟩]⟩

/-- Witness for the amended C9: swapping two concrete files with
duplicate-free names yields the same canonical Package. -/
theorem permutation_determinism_witness :
    sortPackage (extractPackageCore "sample" ["r"] ["r"] none
        [("a.go", wBoxAst), ("b.go", wFreeAst)]) =
      sortPackage (extractPackageCore "sample" ["r"] ["r"] none
        [("b.go", wFreeAst), ("a.go", wBoxAst)]) :=
  permutation_determinism "sample" ["r"] ["r"] none
    [("a.go", wBoxAst), ("b.go", wFreeAst)] [("b.go", wFreeAst), ("a.go", wBoxAst)]
    (List.Perm.swap _ _ _) (by decide) (by decide) (by decide)

end BearingUml
